import Mathlib

/-!
Shallow embedding of `src/rio/debug/layouter.py` (the server-side debug
layouter of the rio UI framework) and proofs about it.

Modelling conventions:
* Python floats are modelled as `ℚ`; all arithmetic used by the layouter
  (`+`, `-`, `*`, `max`) is exact on the inputs we consider.
* A component's concrete type only matters through the `specialized`
  dispatch mechanism: a type is either `Row`, `Column`, `Overlay`, a member
  of `FULL_SIZE_SINGLE_CONTAINERS` (modelled as `SingleContainer`), or any
  other type, for which every `specialized` method falls back to its
  default body (modelled as `Default`).
* The tree-children relation (`iter_direct_tree_children`: direct children
  of fundamental components, the single build result of high-level ones) is
  modelled as the `children` list of a node.
* The dicts `_layouts_should` / `_layouts_are` (component id → layout
  record) are modelled as total functions `Nat → UnittestComponentLayout`;
  the `aux` field (never read or written by the layout algorithm) is
  omitted.  In-place mutation of a record object becomes a functional
  update of the map at that id; attribute reads inside loops read the
  current map, which agrees with Python's aliasing semantics.
* `assert` / `raise NotImplementedError` are modelled with `Except`.
-/

inductive StrategyKind where
  | Row
  | Column
  | Overlay
  | SingleContainer
  | Default
deriving DecidableEq

/-- The `proportions` attribute of a linear container:
`None`, the literal `"homogeneous"`, or an explicit sequence of factors. -/
inductive Proportions where
  | homogeneous
  | explicitFactors (vals : List ℚ)
deriving DecidableEq

/-- The per-node data consumed from the component tree: stable id, the type
tag (reduced to its layout strategy), explicit size constraints (`some` a
number, `none` when unset), effective margins, per-axis alignment (`none`
models fill), and the linear-container parameters. -/
structure ComponentData where
  id : Nat
  kind : StrategyKind
  width : Option ℚ
  height : Option ℚ
  _effective_margin_left : ℚ
  _effective_margin_right : ℚ
  _effective_margin_top : ℚ
  _effective_margin_bottom : ℚ
  align_x : Option ℚ
  align_y : Option ℚ
  spacing : ℚ
  proportions : Option Proportions
deriving DecidableEq

/-- A component: its scalar data plus its tree children
(`iter_direct_tree_children`). -/
inductive Component where
  | mk (data : ComponentData) (children : List Component)

def Component.data : Component → ComponentData
  | .mk d _ => d

def Component.children : Component → List Component
  | .mk _ cs => cs

def Component._id (c : Component) : Nat :=
  c.data.id

/-- Children that are part of the component tree
(`component._iter_direct_children()` for fundamental components). -/
def Component._iter_direct_children (c : Component) : List Component :=
  c.children

/-- `iter_direct_tree_children(session, component)`: fundamental components
yield their direct children, high-level components their single build
result; in the embedding both are the `children` list. -/
def iter_direct_tree_children (c : Component) : List Component :=
  c.children

/-- `rio.data_models.UnittestComponentLayout` (the `aux` dict is omitted:
the algorithm never touches it). -/
structure UnittestComponentLayout where
  natural_width : ℚ
  natural_height : ℚ
  requested_inner_width : ℚ
  requested_inner_height : ℚ
  requested_outer_width : ℚ
  requested_outer_height : ℚ
  allocated_outer_width : ℚ
  allocated_outer_height : ℚ
  allocated_inner_width : ℚ
  allocated_inner_height : ℚ
  left_in_viewport_outer : ℚ
  top_in_viewport_outer : ℚ
  left_in_viewport_inner : ℚ
  top_in_viewport_inner : ℚ
deriving DecidableEq

/-- The freshly pre-allocated record of `_compute_layouts_should`: every
field holds the invalid sentinel `-1`. -/
def unpopulatedLayout : UnittestComponentLayout :=
  { natural_width := -1
    natural_height := -1
    requested_inner_width := -1
    requested_inner_height := -1
    requested_outer_width := -1
    requested_outer_height := -1
    allocated_outer_width := -1
    allocated_outer_height := -1
    allocated_inner_width := -1
    allocated_inner_height := -1
    left_in_viewport_outer := -1
    top_in_viewport_outer := -1
    left_in_viewport_inner := -1
    top_in_viewport_inner := -1 }

/-- A layout-record store (`dict[int, UnittestComponentLayout]`), as a total
map from component ids. -/
abbrev LState := Nat → UnittestComponentLayout

/-- Point update of a layout-record store. -/
def setRec (s : LState) (i : Nat) (r : UnittestComponentLayout) : LState :=
  fun j => if j = i then r else s j

/-- The empty `_layouts_should` dict at the start of a run. -/
def emptyLayouts : LState := fun _ => unpopulatedLayout

/-- Faults raised by the layouter: the two desync assertions in
`Layouter.create` and the `NotImplementedError` for proportions. -/
inductive LayoutError where
  | missingIds (ids : List Nat)
  | superfluousIds (ids : List Nat)
  | notImplemented
deriving DecidableEq

def _linear_container_get_major_axis_natural_size
    (child_requested_sizes : List ℚ) (spacing : ℚ) : ℚ :=
  child_requested_sizes.foldl (fun result x => result + x)
    (spacing * (((child_requested_sizes.length : ℤ) - 1 : ℤ) : ℚ))

/-- The `proportions is None` loop of
`_linear_container_get_major_axis_allocated_sizes`: sequential placement
starting at `cur_x`. -/
def linearPlacementLoop (spacing : ℚ) : ℚ → List ℚ → List (ℚ × ℚ)
  | _, [] => []
  | cur_x, r :: rest => (cur_x, r) :: linearPlacementLoop spacing (cur_x + r + spacing) rest

def _linear_container_get_major_axis_allocated_sizes
    (container_allocated_size : ℚ) (child_requested_sizes : List ℚ)
    (spacing : ℚ) (proportions : Option Proportions) :
    Except LayoutError (List (ℚ × ℚ)) :=
  match proportions with
  | none => .ok (linearPlacementLoop spacing 0 child_requested_sizes)
  | some _ => .error .notImplemented

def calculate_alignment (allocated_outer_size : ℚ) (requested_inner_size : ℚ)
    (margin_start : ℚ) (margin_end : ℚ) (align : Option ℚ) : ℚ × ℚ :=
  match align with
  | none => (margin_start, allocated_outer_size - margin_start - margin_end)
  | some a =>
      (margin_start +
        (allocated_outer_size - requested_inner_size - margin_start - margin_end) * a,
       requested_inner_size)

/-- Modelled from the spec, §4.4 ("Alignment Calculator"), word for word, as
the reference point of the refinement claim about `calculate_alignment`:
fill gives `offset = margin_start`, `size = outer - margin_start -
margin_end`; a fraction `f` gives `size = requested_inner` and `offset =
margin_start + f × (outer - requested_inner - margin_start - margin_end)`. -/
def alignmentReference (outer : ℚ) (requested_inner : ℚ)
    (margin_start : ℚ) (margin_end : ℚ) (align : Option ℚ) : ℚ × ℚ :=
  match align with
  | none => (margin_start, outer - margin_start - margin_end)
  | some f =>
      (margin_start + f * (outer - requested_inner - margin_start - margin_end),
       requested_inner)

mutual
def nodeCount : Component → Nat
  | .mk _ cs => 1 + nodeCountList cs

def nodeCountList : List Component → Nat
  | [] => 0
  | c :: cs => nodeCount c + nodeCountList cs
end

mutual
/-- Canonical enumeration of the nodes of a component subtree: the node,
then the subtrees of its children in declared order ("every node reachable
from the root"). -/
def preorder : Component → List Component
  | .mk d cs => .mk d cs :: preorderList cs

def preorderList : List Component → List Component
  | [] => []
  | c :: cs => preorder c ++ preorderList cs
end

mutual
/-- Depth-first enumeration visiting the children of every node in
reverse declared order: the order actually produced by `_get_toposorted`'s
stack-based loop. -/
def preorderRev : Component → List Component
  | .mk d cs => .mk d cs :: preorderRevList cs

def preorderRevList : List Component → List Component
  | [] => []
  | c :: cs => preorderRevList cs ++ preorderRev c
end

/-- The `while to_do:` loop of `_get_toposorted`: `to_do.pop()` removes the
last element, the yielded node's tree children are appended. -/
def topoWorker (to_do : List Component) : List Component :=
  match h : to_do.getLast? with
  | none => []
  | some current => current :: topoWorker (to_do.dropLast ++ current.children)
termination_by nodeCountList to_do
decreasing_by
  have happ : ∀ l1 l2 : List Component,
      nodeCountList (l1 ++ l2) = nodeCountList l1 + nodeCountList l2 := by
    intro l1 l2
    induction l1 with
    | nil => simp [nodeCountList]
    | cons c cs ih => simp [nodeCountList, ih, Nat.add_assoc]
  rcases List.eq_nil_or_concat to_do with rfl | ⟨l', a, rfl⟩
  · simp at h
  · rw [List.concat_eq_append] at h ⊢
    rw [List.getLast?_concat] at h
    cases h
    rw [List.dropLast_concat, happ, happ]
    have hc : nodeCount current = 1 + nodeCountList current.children := by
      cases current with
      | mk d cs => simp [nodeCount, Component.children]
    simp [nodeCountList, hc]

def _get_toposorted (root : Component) : List Component :=
  topoWorker [root]

def _update_natural_width_Row (s : LState) (c : Component) : LState :=
  let child_widths :=
    c._iter_direct_children.map fun child => (s child._id).requested_outer_width
  setRec s c._id
    { s c._id with
      natural_width :=
        _linear_container_get_major_axis_natural_size child_widths c.data.spacing }

def _update_natural_width_Column (s : LState) (c : Component) : LState :=
  let s0 := setRec s c._id { s c._id with natural_width := 0 }
  c._iter_direct_children.foldl
    (fun t child =>
      setRec t c._id
        { t c._id with
          natural_width := max (t c._id).natural_width (t child._id).requested_outer_width })
    s0

def _update_natural_width_Overlay (s : LState) (c : Component) : LState :=
  setRec s c._id { s c._id with natural_width := 0 }

def _update_natural_width_SingleContainer (s : LState) (c : Component) : LState :=
  let s0 := setRec s c._id { s c._id with natural_width := 0 }
  (iter_direct_tree_children c).foldl
    (fun t child =>
      setRec t c._id
        { t c._id with
          natural_width := max (t c._id).natural_width (t child._id).requested_outer_width })
    s0

/-- `_update_natural_width` with its `specialized` dispatch; the `Default`
branch is the body of the undecorated method (trust the client). -/
def _update_natural_width (are : LState) (s : LState) (c : Component) : LState :=
  match c.data.kind with
  | .Row => _update_natural_width_Row s c
  | .Column => _update_natural_width_Column s c
  | .Overlay => _update_natural_width_Overlay s c
  | .SingleContainer => _update_natural_width_SingleContainer s c
  | .Default => setRec s c._id { s c._id with natural_width := (are c._id).natural_width }

def _update_allocated_width_Row (s : LState) (c : Component) :
    Except LayoutError LState :=
  let child_widths :=
    c._iter_direct_children.map fun child => (s child._id).requested_outer_width
  match _linear_container_get_major_axis_allocated_sizes
      (s c._id).allocated_inner_width child_widths c.data.spacing c.data.proportions with
  | .error e => .error e
  | .ok starts_and_sizes =>
      .ok ((c._iter_direct_children.zip starts_and_sizes).foldl
        (fun t p =>
          setRec t p.1._id
            { t p.1._id with
              left_in_viewport_outer := (t c._id).left_in_viewport_inner + p.2.1,
              allocated_outer_width := p.2.2 })
        s)

def _update_allocated_width_Column (s : LState) (c : Component) : LState :=
  c._iter_direct_children.foldl
    (fun t child =>
      setRec t child._id
        { t child._id with
          left_in_viewport_outer := (t c._id).left_in_viewport_inner,
          allocated_outer_width := (t c._id).allocated_inner_width })
    s

/-- `_update_allocated_width_Overlay` addresses `component.content`, the
overlay's single tree child; a childless overlay cannot occur in rio, the
`[]` branch is a vacuous completion of the match. -/
def _update_allocated_width_Overlay (window_width : ℚ) (s : LState) (c : Component) : LState :=
  match c._iter_direct_children with
  | [] => s
  | content :: _ =>
      setRec s content._id
        { s content._id with
          left_in_viewport_outer := 0,
          allocated_outer_width := window_width }

def _update_allocated_width_SingleContainer (s : LState) (c : Component) : LState :=
  (iter_direct_tree_children c).foldl
    (fun t child =>
      setRec t child._id
        { t child._id with
          left_in_viewport_outer := (t c._id).left_in_viewport_inner,
          allocated_outer_width := (t c._id).allocated_inner_width })
    s

/-- `_update_allocated_width` with its `specialized` dispatch; the `Default`
branch copies each child's reported allocated width (and nothing else). -/
def _update_allocated_width (are : LState) (window_width : ℚ) (s : LState) (c : Component) :
    Except LayoutError LState :=
  match c.data.kind with
  | .Row => _update_allocated_width_Row s c
  | .Column => .ok (_update_allocated_width_Column s c)
  | .Overlay => .ok (_update_allocated_width_Overlay window_width s c)
  | .SingleContainer => .ok (_update_allocated_width_SingleContainer s c)
  | .Default =>
      .ok ((iter_direct_tree_children c).foldl
        (fun t child =>
          setRec t child._id
            { t child._id with
              allocated_outer_width := (are child._id).allocated_outer_width })
        s)

def _update_natural_height_Row (s : LState) (c : Component) : LState :=
  let s0 := setRec s c._id { s c._id with natural_height := 0 }
  c._iter_direct_children.foldl
    (fun t child =>
      setRec t c._id
        { t c._id with
          natural_height := max (t c._id).natural_height (t child._id).requested_outer_height })
    s0

def _update_natural_height_Column (s : LState) (c : Component) : LState :=
  let child_heights :=
    c._iter_direct_children.map fun child => (s child._id).requested_outer_height
  setRec s c._id
    { s c._id with
      natural_height :=
        _linear_container_get_major_axis_natural_size child_heights c.data.spacing }

def _update_natural_height_Overlay (s : LState) (c : Component) : LState :=
  setRec s c._id { s c._id with natural_height := 0 }

def _update_natural_height_SingleContainer (s : LState) (c : Component) : LState :=
  let s0 := setRec s c._id { s c._id with natural_height := 0 }
  (iter_direct_tree_children c).foldl
    (fun t child =>
      setRec t c._id
        { t c._id with
          natural_height := max (t c._id).natural_height (t child._id).requested_outer_height })
    s0

/-- `_update_natural_height` with its `specialized` dispatch. -/
def _update_natural_height (are : LState) (s : LState) (c : Component) : LState :=
  match c.data.kind with
  | .Row => _update_natural_height_Row s c
  | .Column => _update_natural_height_Column s c
  | .Overlay => _update_natural_height_Overlay s c
  | .SingleContainer => _update_natural_height_SingleContainer s c
  | .Default => setRec s c._id { s c._id with natural_height := (are c._id).natural_height }

def _update_allocated_height_Row (s : LState) (c : Component) : LState :=
  c._iter_direct_children.foldl
    (fun t child =>
      setRec t child._id
        { t child._id with
          top_in_viewport_outer := (t c._id).top_in_viewport_inner,
          allocated_outer_height := (t c._id).allocated_inner_height })
    s

def _update_allocated_height_Column (s : LState) (c : Component) :
    Except LayoutError LState :=
  let child_heights :=
    c._iter_direct_children.map fun child => (s child._id).requested_outer_height
  match _linear_container_get_major_axis_allocated_sizes
      (s c._id).allocated_inner_height child_heights c.data.spacing c.data.proportions with
  | .error e => .error e
  | .ok starts_and_sizes =>
      .ok ((c._iter_direct_children.zip starts_and_sizes).foldl
        (fun t p =>
          setRec t p.1._id
            { t p.1._id with
              top_in_viewport_outer := (t c._id).top_in_viewport_inner + p.2.1,
              allocated_outer_height := p.2.2 })
        s)

/-- `_update_allocated_height_Overlay`: like its width counterpart, pins
`component.content` (the single tree child) to the window. -/
def _update_allocated_height_Overlay (window_height : ℚ) (s : LState) (c : Component) : LState :=
  match c._iter_direct_children with
  | [] => s
  | content :: _ =>
      setRec s content._id
        { s content._id with
          top_in_viewport_outer := 0,
          allocated_outer_height := window_height }

def _update_allocated_height_SingleContainer (s : LState) (c : Component) : LState :=
  (iter_direct_tree_children c).foldl
    (fun t child =>
      setRec t child._id
        { t child._id with
          top_in_viewport_outer := (t c._id).top_in_viewport_inner,
          allocated_outer_height := (t c._id).allocated_inner_height })
    s

/-- `_update_allocated_height` with its `specialized` dispatch; the
`Default` branch copies each child's reported allocated height AND both
outer viewport coordinates. -/
def _update_allocated_height (are : LState) (window_height : ℚ) (s : LState) (c : Component) :
    Except LayoutError LState :=
  match c.data.kind with
  | .Row => .ok (_update_allocated_height_Row s c)
  | .Column => _update_allocated_height_Column s c
  | .Overlay => .ok (_update_allocated_height_Overlay window_height s c)
  | .SingleContainer => .ok (_update_allocated_height_SingleContainer s c)
  | .Default =>
      .ok ((iter_direct_tree_children c).foldl
        (fun t child =>
          setRec t child._id
            { t child._id with
              allocated_outer_height := (are child._id).allocated_outer_height,
              left_in_viewport_outer := (are child._id).left_in_viewport_outer,
              top_in_viewport_outer := (are child._id).top_in_viewport_outer })
        s)

/-- One iteration of step 1 of `_compute_layouts_should`: pre-allocate the
sentinel record, update the natural width, derive the requested widths. -/
def widthRequestStep (are : LState) (s : LState) (c : Component) : LState :=
  let s1 := setRec s c._id unpopulatedLayout
  let s2 := _update_natural_width are s1 c
  let min_width := match c.data.width with | some w => w | none => 0
  let r := s2 c._id
  let requested_inner := max r.natural_width min_width
  setRec s2 c._id
    { r with
      requested_inner_width := requested_inner,
      requested_outer_width :=
        requested_inner + c.data._effective_margin_left + c.data._effective_margin_right }

/-- One iteration of step 2 of `_compute_layouts_should`: align the
component inside its allocated outer width, then let it allocate widths to
its children. -/
def widthAllocStep (are : LState) (window_width : ℚ) (s : LState) (c : Component) :
    Except LayoutError LState :=
  let layout := s c._id
  let lw := calculate_alignment layout.allocated_outer_width layout.requested_inner_width
    c.data._effective_margin_left c.data._effective_margin_right c.data.align_x
  let s1 := setRec s c._id
    { layout with
      left_in_viewport_inner := layout.left_in_viewport_outer + lw.1,
      allocated_inner_width := lw.2 }
  _update_allocated_width are window_width s1 c

/-- One iteration of step 3 of `_compute_layouts_should`. -/
def heightRequestStep (are : LState) (s : LState) (c : Component) : LState :=
  let s2 := _update_natural_height are s c
  let min_height := match c.data.height with | some h => h | none => 0
  let r := s2 c._id
  let requested_inner := max r.natural_height min_height
  setRec s2 c._id
    { r with
      requested_inner_height := requested_inner,
      requested_outer_height :=
        requested_inner + c.data._effective_margin_top + c.data._effective_margin_bottom }

/-- One iteration of step 4 of `_compute_layouts_should`. -/
def heightAllocStep (are : LState) (window_height : ℚ) (s : LState) (c : Component) :
    Except LayoutError LState :=
  let layout := s c._id
  let th := calculate_alignment layout.allocated_outer_height layout.requested_inner_height
    c.data._effective_margin_top c.data._effective_margin_bottom c.data.align_y
  let s1 := setRec s c._id
    { layout with
      top_in_viewport_inner := layout.top_in_viewport_outer + th.1,
      allocated_inner_height := th.2 }
  _update_allocated_height are window_height s1 c

/-- Step 1 of `_compute_layouts_should`: natural & requested widths, in
reverse topological order, starting from the empty dict. -/
def widthRequestPass (are : LState) (ordered_components : List Component) : LState :=
  ordered_components.reverse.foldl (widthRequestStep are) emptyLayouts

/-- The root seed between steps 1 and 2: outer left 0, allocated outer
width `max(window_width, requested_outer_width)`. -/
def seedRootWidth (window_width : ℚ) (root : Component) (s : LState) : LState :=
  setRec s root._id
    { s root._id with
      left_in_viewport_outer := 0,
      allocated_outer_width := max window_width (s root._id).requested_outer_width }

/-- Step 2 of `_compute_layouts_should`: allocated widths, in forward
topological order. -/
def widthAllocPass (are : LState) (window_width : ℚ) (ordered_components : List Component)
    (s : LState) : Except LayoutError LState :=
  ordered_components.foldlM (widthAllocStep are window_width) s

/-- Step 3 of `_compute_layouts_should`. -/
def heightRequestPass (are : LState) (ordered_components : List Component) (s : LState) :
    LState :=
  ordered_components.reverse.foldl (heightRequestStep are) s

/-- The root seed between steps 3 and 4. -/
def seedRootHeight (window_height : ℚ) (root : Component) (s : LState) : LState :=
  setRec s root._id
    { s root._id with
      top_in_viewport_outer := 0,
      allocated_outer_height := max window_height (s root._id).requested_outer_height }

/-- `_compute_layouts_should`: the four passes in order, width fully
resolved before height. -/
def _compute_layouts_should (are : LState) (window_width window_height : ℚ)
    (root : Component) (ordered_components : List Component) :
    Except LayoutError LState :=
  (widthAllocPass are window_width ordered_components
      (seedRootWidth window_width root (widthRequestPass are ordered_components))) >>=
    fun s3 =>
      ordered_components.foldlM (heightAllocStep are window_height)
        (seedRootHeight window_height root (heightRequestPass are ordered_components s3))

/-- The data returned by the single asynchronous call
`session._get_unittest_client_layout_info()`: window size and the reported
per-component layouts.  The dict `component_layouts` is modelled as its key
list plus a total lookup function. -/
structure UnittestClientLayoutInfo where
  window_width : ℚ
  window_height : ℚ
  component_layout_ids : List Nat
  component_layouts : LState

structure Layouter where
  window_width : ℚ
  window_height : ℚ
  _layouts_should : LState
  _layouts_are : LState

/-- `Layouter.create`: toposort the tree, receive the client info, check
the two id sets against each other (missing ids are asserted first, then
superfluous ones), then compute the server-side layouts. -/
def Layouter.create (root : Component) (client_info : UnittestClientLayoutInfo) :
    Except LayoutError Layouter :=
  let ordered_components := _get_toposorted root
  let component_ids_server := ordered_components.map Component._id
  let component_ids_client := client_info.component_layout_ids
  let missing_component_ids :=
    component_ids_server.filter fun i => decide (i ∉ component_ids_client)
  if missing_component_ids.isEmpty then
    let superfluous_component_ids :=
      component_ids_client.filter fun i => decide (i ∉ component_ids_server)
    if superfluous_component_ids.isEmpty then
      (_compute_layouts_should client_info.component_layouts
          client_info.window_width client_info.window_height root ordered_components).map
        fun sh =>
          { window_width := client_info.window_width
            window_height := client_info.window_height
            _layouts_should := sh
            _layouts_are := client_info.component_layouts }
    else .error (.superfluousIds superfluous_component_ids)
  else .error (.missingIds missing_component_ids)

/-- A component tree snapshot is well formed when the ids of its nodes are
pairwise distinct (ids are "unique within a tree snapshot"). -/
def WellFormedIds (root : Component) : Prop :=
  ((preorder root).map Component._id).Nodup

/-- All ids occupying a child slot below the nodes of a list (each node
contributes the ids of its direct children). -/
def childSlotIds : List Component → List Nat
  | [] => []
  | c :: cs => c.children.map Component._id ++ childSlotIds cs

/-- Number of occurrences of an id in a list of ids. -/
def countN (t : Nat) : List Nat → Nat
  | [] => 0
  | a :: l => (if a = t then 1 else 0) + countN t l

/-- The traversal contract claimed for `_get_toposorted`: every reachable
node exactly once, ancestors before descendants, and siblings in the
node's declared child order. -/
def toposortedSpecClaim (root : Component) : Prop :=
  (_get_toposorted root).Perm (preorder root)
    ∧ (∀ p ∈ preorder root, ∀ x ∈ p.children,
        ∃ A B, _get_toposorted root = A ++ p :: B ∧ x ∈ B)
    ∧ (∀ p ∈ preorder root, p.children.Sublist (_get_toposorted root))

/-- Component data with no explicit sizes, no margins, fill alignment,
spacing 0 and no proportions: the neutral inputs of the concrete examples. -/
def plainData (i : Nat) (k : StrategyKind) : ComponentData :=
  { id := i
    kind := k
    width := none
    height := none
    _effective_margin_left := 0
    _effective_margin_right := 0
    _effective_margin_top := 0
    _effective_margin_bottom := 0
    align_x := none
    align_y := none
    spacing := 0
    proportions := none }

def exLeaf1 : Component := .mk (plainData 1 .Default) []

def exLeaf2 : Component := .mk (plainData 2 .Default) []

def exRowRoot : Component := .mk (plainData 0 .Row) [exLeaf1, exLeaf2]

def exDefaultRoot : Component := .mk (plainData 0 .Default) [exLeaf1]

def exOverlayRoot : Component := .mk (plainData 0 .Overlay) [exLeaf1]

/-- A `Row` whose `proportions` attribute is explicitly set. -/
def exProportionsRow : Component :=
  .mk { plainData 3 .Row with proportions := some .homogeneous } []

/-- A `Column` whose `proportions` attribute is explicitly set. -/
def exProportionsColumn : Component :=
  .mk { plainData 4 .Column with proportions := some .homogeneous } []

/-- A reported client-side record with every field set to 7. -/
def exAreRecord : UnittestComponentLayout :=
  { natural_width := 7
    natural_height := 7
    requested_inner_width := 7
    requested_inner_height := 7
    requested_outer_width := 7
    requested_outer_height := 7
    allocated_outer_width := 7
    allocated_outer_height := 7
    allocated_inner_width := 7
    allocated_inner_height := 7
    left_in_viewport_outer := 7
    top_in_viewport_outer := 7
    left_in_viewport_inner := 7
    top_in_viewport_inner := 7 }

def exAre : LState := fun _ => exAreRecord

/-- Client info whose id set misses component 1 of `exDefaultRoot`. -/
def exClientInfoMissing : UnittestClientLayoutInfo :=
  { window_width := 100
    window_height := 100
    component_layout_ids := [0]
    component_layouts := exAre }

/-- Total wrapper of `_compute_layouts_should`, used to name the resulting
state in concrete instantiations. -/
def runLayouts (are : LState) (window_width window_height : ℚ)
    (root : Component) (ordered_components : List Component) : LState :=
  match _compute_layouts_should are window_width window_height root ordered_components with
  | .ok s => s
  | .error _ => emptyLayouts

theorem nodeCount_eq (c : Component) : nodeCount c = 1 + nodeCountList c.children := by
  cases c with
  | mk d cs => simp [nodeCount, Component.children]

theorem nodeCountList_append (l1 l2 : List Component) :
    nodeCountList (l1 ++ l2) = nodeCountList l1 + nodeCountList l2 := by
  induction l1 with
  | nil => simp [nodeCountList]
  | cons c cs ih => simp [nodeCountList, ih, Nat.add_assoc]

theorem nodeCount_lt_of_mem_children {p x : Component} (h : x ∈ p.children) :
    nodeCount x < nodeCount p := by
  have hle : ∀ l : List Component, x ∈ l → nodeCount x ≤ nodeCountList l := by
    intro l hl
    induction l with
    | nil => simp at hl
    | cons c cs ih =>
        rw [nodeCountList]
        rcases List.mem_cons.mp hl with rfl | h2
        · omega
        · have := ih h2
          omega
  have h1 := hle p.children h
  have h2 := nodeCount_eq p
  omega

theorem preorder_eq (c : Component) : preorder c = c :: preorderList c.children := by
  cases c with
  | mk d cs => simp [preorder, Component.children]

theorem preorderRev_eq (c : Component) : preorderRev c = c :: preorderRevList c.children := by
  cases c with
  | mk d cs => simp [preorderRev, Component.children]

theorem self_mem_preorder (c : Component) : c ∈ preorder c := by
  rw [preorder_eq]
  exact List.mem_cons_self _ _

theorem mem_preorderList_of_mem {l : List Component} {c : Component} (h : c ∈ l) :
    c ∈ preorderList l := by
  induction l with
  | nil => simp at h
  | cons a as ih =>
      rw [preorderList]
      rcases List.mem_cons.mp h with rfl | h2
      · exact List.mem_append_left _ (self_mem_preorder c)
      · exact List.mem_append_right _ (ih h2)

theorem mem_preorderRevList_of_mem {l : List Component} {c : Component} (h : c ∈ l) :
    c ∈ preorderRevList l := by
  induction l with
  | nil => simp at h
  | cons a as ih =>
      rw [preorderRevList]
      rcases List.mem_cons.mp h with rfl | h2
      · exact List.mem_append_right _ (by rw [preorderRev_eq]; exact List.mem_cons_self _ _)
      · exact List.mem_append_left _ (ih h2)

theorem child_mem_preorder {p x : Component} (h : x ∈ p.children) : x ∈ preorder p := by
  rw [preorder_eq]
  exact List.mem_cons_of_mem _ (mem_preorderList_of_mem h)

theorem preorderRevList_append (l1 l2 : List Component) :
    preorderRevList (l1 ++ l2) = preorderRevList l2 ++ preorderRevList l1 := by
  induction l1 with
  | nil => simp [preorderRevList]
  | cons c cs ih => simp [preorderRevList, ih, List.append_assoc]

theorem topoWorker_eq (to_do : List Component) : topoWorker to_do = preorderRevList to_do := by
  generalize hn : nodeCountList to_do = n
  induction n using Nat.strong_induction_on generalizing to_do with
  | _ n ih =>
      rcases List.eq_nil_or_concat to_do with rfl | ⟨l, x, rfl⟩
      · rw [topoWorker]
        rfl
      · rw [List.concat_eq_append] at hn ⊢
        rw [topoWorker]
        split
        · rename_i heq
          rw [List.getLast?_concat] at heq
          simp at heq
        · rename_i current heq
          rw [List.getLast?_concat] at heq
          cases heq
          rw [List.dropLast_concat]
          have hlt : nodeCountList (l ++ x.children) < n := by
            rw [nodeCountList_append] at hn ⊢
            have := nodeCount_eq x
            simp [nodeCountList] at hn
            omega
          rw [ih _ hlt _ rfl, preorderRevList_append, preorderRevList_append]
          rw [preorderRevList, preorderRevList, preorderRev_eq]
          simp

theorem get_toposorted_eq (root : Component) :
    _get_toposorted root = preorderRev root := by
  rw [_get_toposorted, topoWorker_eq]
  rw [show ([root] : List Component) = [] ++ [root] by simp, preorderRevList_append]
  rw [preorderRevList, preorderRevList, preorderRevList]
  simp

mutual
theorem preorderRev_perm : ∀ c : Component, (preorderRev c).Perm (preorder c)
  | .mk d cs => by
      rw [preorderRev, preorder]
      exact List.Perm.cons _ (preorderRevList_perm cs)

theorem preorderRevList_perm : ∀ l : List Component, (preorderRevList l).Perm (preorderList l)
  | [] => List.Perm.refl _
  | c :: cs => by
      rw [preorderRevList, preorderList]
      exact List.perm_append_comm.trans
        ((preorderRev_perm c).append (preorderRevList_perm cs))
end

theorem get_toposorted_perm (root : Component) :
    (_get_toposorted root).Perm (preorder root) := by
  rw [get_toposorted_eq]
  exact preorderRev_perm root

mutual
theorem preorder_infix_of_mem : ∀ (r p : Component), p ∈ preorder r →
    ∃ A B, preorder r = A ++ (preorder p ++ B)
  | .mk d cs, p, hp => by
      rw [preorder] at hp
      rcases List.mem_cons.mp hp with rfl | h2
      · exact ⟨[], [], by rw [preorder]; simp⟩
      · obtain ⟨A, B, hAB⟩ := preorderList_infix_of_mem cs p h2
        exact ⟨.mk d cs :: A, B, by rw [preorder, hAB]; simp⟩

theorem preorderList_infix_of_mem : ∀ (l : List Component) (p : Component),
    p ∈ preorderList l → ∃ A B, preorderList l = A ++ (preorder p ++ B)
  | [], p, hp => by
      rw [preorderList] at hp
      simp at hp
  | c :: cs, p, hp => by
      rw [preorderList] at hp
      rcases List.mem_append.mp hp with h1 | h2
      · obtain ⟨A, B, hAB⟩ := preorder_infix_of_mem c p h1
        exact ⟨A, B ++ preorderList cs, by rw [preorderList, hAB]; simp⟩
      · obtain ⟨A, B, hAB⟩ := preorderList_infix_of_mem cs p h2
        exact ⟨preorder c ++ A, B, by rw [preorderList, hAB]; simp⟩
end

mutual
theorem preorderRev_infix_of_mem : ∀ (r p : Component), p ∈ preorder r →
    ∃ A B, preorderRev r = A ++ (preorderRev p ++ B)
  | .mk d cs, p, hp => by
      rw [preorder] at hp
      rcases List.mem_cons.mp hp with rfl | h2
      · exact ⟨[], [], by rw [preorderRev]; simp⟩
      · obtain ⟨A, B, hAB⟩ := preorderRevList_infix_of_mem cs p h2
        exact ⟨.mk d cs :: A, B, by rw [preorderRev, hAB]; simp⟩

theorem preorderRevList_infix_of_mem : ∀ (l : List Component) (p : Component),
    p ∈ preorderList l → ∃ A B, preorderRevList l = A ++ (preorderRev p ++ B)
  | [], p, hp => by
      rw [preorderList] at hp
      simp at hp
  | c :: cs, p, hp => by
      rw [preorderList] at hp
      rcases List.mem_append.mp hp with h1 | h2
      · obtain ⟨A, B, hAB⟩ := preorderRev_infix_of_mem c p h1
        exact ⟨preorderRevList cs ++ A, B, by rw [preorderRevList, hAB]; simp⟩
      · obtain ⟨A, B, hAB⟩ := preorderRevList_infix_of_mem cs p h2
        exact ⟨A, B ++ preorderRev c, by rw [preorderRevList, hAB]; simp⟩
end

theorem mem_preorder_trans {r p x : Component} (h1 : p ∈ preorder r)
    (h2 : x ∈ preorder p) : x ∈ preorder r := by
  obtain ⟨A, B, hAB⟩ := preorder_infix_of_mem r p h1
  rw [hAB]
  exact List.mem_append_right _ (List.mem_append_left _ h2)

theorem children_sublist_preorderList : ∀ l : List Component, l.Sublist (preorderList l) := by
  intro l
  induction l with
  | nil => simp [preorderList]
  | cons c cs ih =>
      rw [preorderList, preorder_eq, List.cons_append]
      exact List.Sublist.cons₂ c (ih.trans (List.sublist_append_right _ _))

theorem childrenRev_sublist_preorderRevList :
    ∀ l : List Component, l.reverse.Sublist (preorderRevList l) := by
  intro l
  induction l with
  | nil => simp [preorderRevList]
  | cons c cs ih =>
      rw [preorderRevList, List.reverse_cons]
      exact ih.append (by rw [preorderRev_eq]; exact (List.nil_sublist _).cons₂ c)

/-- C2 (counterexample): the traversal contract as claimed is false — on a
`Row` with two children, `_get_toposorted` yields the siblings in reverse
declared order, so the children list is not a subsequence of the traversal. -/
theorem toposort_sibling_order_counterexample :
    ¬ ∀ root : Component, toposortedSpecClaim root := by
  intro h
  have h3 := (h exRowRoot).2.2 exRowRoot (self_mem_preorder exRowRoot)
  have he : _get_toposorted exRowRoot = [exRowRoot, exLeaf2, exLeaf1] := by
    rw [get_toposorted_eq]
    rw [preorderRev_eq]
    show _ = exRowRoot :: [exLeaf2, exLeaf1]
    rw [show exRowRoot.children = [exLeaf1, exLeaf2] from rfl]
    rw [preorderRevList, preorderRevList, preorderRevList]
    rw [preorderRev_eq, preorderRev_eq]
    rw [show exLeaf1.children = [] from rfl, show exLeaf2.children = [] from rfl]
    rw [preorderRevList]
    simp
  rw [he] at h3
  have h4 := (h3.map Component._id)
  rw [show exRowRoot.children = [exLeaf1, exLeaf2] from rfl] at h4
  have h5 : ([1, 2] : List Nat).Sublist [0, 2, 1] := by
    have e1 : exLeaf1._id = 1 := rfl
    have e2 : exLeaf2._id = 2 := rfl
    have e0 : exRowRoot._id = 0 := rfl
    simpa [e0, e1, e2] using h4
  exact absurd h5 (by decide)

/-- C2 (amended): `_get_toposorted` visits every node reachable from the
root exactly once (it is a permutation of the preorder enumeration), every
parent appears before each of its children, and siblings appear in the
REVERSE of the node's declared child order. -/
theorem toposort_traversal_properties :
    ∀ root : Component,
      (_get_toposorted root).Perm (preorder root)
      ∧ (∀ p ∈ preorder root, ∀ x ∈ p.children,
          ∃ A B, _get_toposorted root = A ++ p :: B ∧ x ∈ B)
      ∧ (∀ p ∈ preorder root, p.children.reverse.Sublist (_get_toposorted root)) := by
  intro root
  refine ⟨get_toposorted_perm root, ?_, ?_⟩
  · intro p hp x hx
    obtain ⟨A, B, hAB⟩ := preorderRev_infix_of_mem root p hp
    rw [get_toposorted_eq, hAB, preorderRev_eq]
    refine ⟨A, preorderRevList p.children ++ B, by simp, ?_⟩
    exact List.mem_append_left _ (mem_preorderRevList_of_mem hx)
  · intro p hp
    obtain ⟨A, B, hAB⟩ := preorderRev_infix_of_mem root p hp
    rw [get_toposorted_eq, hAB]
    have h1 : p.children.reverse.Sublist (preorderRev p) := by
      rw [preorderRev_eq]
      exact (childrenRev_sublist_preorderRevList p.children).trans (List.sublist_cons_self _ _)
    exact h1.trans ((List.sublist_append_left _ B).trans (List.sublist_append_right A _))

theorem toposort_traversal_properties_witness :
    ∃ A B, _get_toposorted exRowRoot = A ++ exRowRoot :: B ∧ exLeaf1 ∈ B :=
  (toposort_traversal_properties exRowRoot).2.1 exRowRoot (self_mem_preorder exRowRoot)
    exLeaf1 (by rw [show exRowRoot.children = [exLeaf1, exLeaf2] from rfl]; simp)

theorem foldl_add_eq_add_sum (l : List ℚ) (a : ℚ) :
    l.foldl (fun result x => result + x) a = a + l.sum := by
  induction l generalizing a with
  | nil => simp
  | cons x xs ih => rw [List.foldl_cons, ih, List.sum_cons]; ring

theorem linearPlacementLoop_length (spacing : ℚ) :
    ∀ (reqs : List ℚ) (x : ℚ), (linearPlacementLoop spacing x reqs).length = reqs.length := by
  intro reqs
  induction reqs with
  | nil => intro x; rfl
  | cons r rest ih => intro x; simp [linearPlacementLoop, ih]

theorem linearPlacementLoop_get_snd (spacing : ℚ) :
    ∀ (reqs : List ℚ) (x : ℚ) (i : Nat) (h : i < (linearPlacementLoop spacing x reqs).length)
      (h2 : i < reqs.length),
      ((linearPlacementLoop spacing x reqs).get ⟨i, h⟩).2 = reqs.get ⟨i, h2⟩ := by
  intro reqs
  induction reqs with
  | nil => intro x i h h2; simp [linearPlacementLoop] at h
  | cons r rest ih =>
      intro x i h h2
      cases i with
      | zero => rfl
      | succ j => exact ih (x + r + spacing) j _ _

theorem linearPlacementLoop_get_zero (spacing : ℚ) (reqs : List ℚ) (x : ℚ)
    (h : 0 < (linearPlacementLoop spacing x reqs).length) :
    ((linearPlacementLoop spacing x reqs).get ⟨0, h⟩).1 = x := by
  cases reqs with
  | nil => simp [linearPlacementLoop] at h
  | cons r rest => rfl

theorem linearPlacementLoop_get_succ (spacing : ℚ) :
    ∀ (reqs : List ℚ) (x : ℚ) (i : Nat)
      (h1 : i + 1 < (linearPlacementLoop spacing x reqs).length)
      (h0 : i < (linearPlacementLoop spacing x reqs).length),
      ((linearPlacementLoop spacing x reqs).get ⟨i + 1, h1⟩).1
        = ((linearPlacementLoop spacing x reqs).get ⟨i, h0⟩).1
          + ((linearPlacementLoop spacing x reqs).get ⟨i, h0⟩).2 + spacing := by
  intro reqs
  induction reqs with
  | nil => intro x i h1 h0; simp [linearPlacementLoop] at h0
  | cons r rest ih =>
      intro x i h1 h0
      cases i with
      | zero =>
          cases rest with
          | nil => simp [linearPlacementLoop] at h1
          | cons r2 rest2 => simp [linearPlacementLoop, List.get]
      | succ j => exact ih (x + r + spacing) j _ _

/-- C3: `calculate_alignment` equals the §4.4 reference definition on all
inputs; with alignment unset it returns `(margin_start, outer - margins)`
independently of `requested_inner`; with a fractional alignment it returns
size `requested_inner` and the proportionally distributed offset; the
fractional size is not clamped to the available space; and the two
concrete examples of the spec hold. -/
theorem calculate_alignment_matches_reference :
    (∀ (outer ri ms me : ℚ) (al : Option ℚ),
      calculate_alignment outer ri ms me al = alignmentReference outer ri ms me al)
    ∧ (∀ outer ri ms me : ℚ,
      calculate_alignment outer ri ms me none = (ms, outer - ms - me))
    ∧ (∀ outer ri ms me f : ℚ,
      calculate_alignment outer ri ms me (some f)
        = (ms + f * (outer - ri - ms - me), ri))
    ∧ (∀ outer ri ms me f : ℚ, outer < ri + ms + me →
      outer - ms - me < (calculate_alignment outer ri ms me (some f)).2)
    ∧ (∀ ri : ℚ, calculate_alignment 100 ri 2 3 none = (2, 95))
    ∧ calculate_alignment 100 50 2 3 (some (1/2)) = (49/2, 50) := by
  refine ⟨?_, ?_, ?_, ?_, ?_, ?_⟩
  · intro outer ri ms me al
    cases al with
    | none => rfl
    | some f => simp [calculate_alignment, alignmentReference, mul_comm]
  · intro outer ri ms me; rfl
  · intro outer ri ms me f; simp [calculate_alignment, mul_comm]
  · intro outer ri ms me f h
    simp only [calculate_alignment]
    linarith
  · intro ri; simp [calculate_alignment]; norm_num
  · simp [calculate_alignment]; norm_num

theorem calculate_alignment_matches_reference_witness :
    (100 : ℚ) < 200 + 2 + 3
      ∧ (100 : ℚ) - 2 - 3 < (calculate_alignment 100 200 2 3 (some 0)).2 :=
  ⟨by norm_num,
    calculate_alignment_matches_reference.2.2.2.1 100 200 2 3 0 (by norm_num)⟩

/-- C4: the major-axis natural size of a linear container is the sum of the
children's requested outer sizes plus `spacing × (n - 1)`; in the layouter,
a `Row`'s natural width is exactly that of its children's requested outer
widths; and `[10, 20]` with spacing `5` gives `35`. -/
theorem linear_container_natural_size :
    (∀ (sizes : List ℚ) (spacing : ℚ),
      _linear_container_get_major_axis_natural_size sizes spacing
        = sizes.sum + spacing * (((sizes.length : ℤ) - 1 : ℤ) : ℚ))
    ∧ (∀ (are s : LState) (c : Component), c.data.kind = .Row →
      ((_update_natural_width are s c) c._id).natural_width
        = (c.children.map fun child => (s child._id).requested_outer_width).sum
          + c.data.spacing * (((c.children.length : ℤ) - 1 : ℤ) : ℚ))
    ∧ _linear_container_get_major_axis_natural_size [10, 20] 5 = 35 := by
  have hmain : ∀ (sizes : List ℚ) (spacing : ℚ),
      _linear_container_get_major_axis_natural_size sizes spacing
        = sizes.sum + spacing * (((sizes.length : ℤ) - 1 : ℤ) : ℚ) := by
    intro sizes spacing
    rw [_linear_container_get_major_axis_natural_size, foldl_add_eq_add_sum]
    ring
  refine ⟨hmain, ?_, ?_⟩
  · intro are s c hk
    rw [_update_natural_width, hk]
    simp only [_update_natural_width_Row, Component._iter_direct_children, setRec]
    simp [hmain, List.length_map]
  · rw [hmain]
    norm_num

theorem linear_container_natural_size_witness :
    ((_update_natural_width exAre exAre exRowRoot) exRowRoot._id).natural_width
      = ((exRowRoot.children.map fun child => (exAre child._id).requested_outer_width).sum
        + exRowRoot.data.spacing * (((exRowRoot.children.length : ℤ) - 1 : ℤ) : ℚ)) :=
  linear_container_natural_size.2.1 exAre exAre exRowRoot rfl

/-- C1: with `proportions` unset, the linear-container allocator places the
children sequentially: the result has one entry per child, child `i` gets
exactly its requested outer size, child `0` starts at offset `0`, child
`i + 1` starts at child `i`'s start plus its size plus the spacing; the
result does not depend on the container's allocated size (leftover space
stays unused); and the spec's concrete example holds. -/
theorem linear_container_sequential_placement :
    ∀ (alloc alloc2 spacing : ℚ) (reqs : List ℚ),
      (_linear_container_get_major_axis_allocated_sizes alloc reqs spacing none
        = _linear_container_get_major_axis_allocated_sizes alloc2 reqs spacing none)
      ∧ (∀ l, _linear_container_get_major_axis_allocated_sizes alloc reqs spacing none
            = .ok l →
          l.length = reqs.length
          ∧ (∀ (i : Nat) (h : i < l.length) (h2 : i < reqs.length),
              (l.get ⟨i, h⟩).2 = reqs.get ⟨i, h2⟩)
          ∧ (∀ h0 : 0 < l.length, (l.get ⟨0, h0⟩).1 = 0)
          ∧ (∀ (i : Nat) (h1 : i + 1 < l.length) (h0 : i < l.length),
              (l.get ⟨i + 1, h1⟩).1 = (l.get ⟨i, h0⟩).1 + (l.get ⟨i, h0⟩).2 + spacing))
      ∧ _linear_container_get_major_axis_allocated_sizes 35 [10, 20] 5 none
          = .ok [(0, 10), (15, 20)] := by
  intro alloc alloc2 spacing reqs
  refine ⟨rfl, ?_, ?_⟩
  · intro l hl
    have hl2 : linearPlacementLoop spacing 0 reqs = l := by
      simpa [_linear_container_get_major_axis_allocated_sizes] using hl
    subst hl2
    exact ⟨linearPlacementLoop_length spacing reqs 0,
      fun i h h2 => linearPlacementLoop_get_snd spacing reqs 0 i h h2,
      fun h0 => linearPlacementLoop_get_zero spacing reqs 0 h0,
      fun i h1 h0 => linearPlacementLoop_get_succ spacing reqs 0 i h1 h0⟩
  · simp [_linear_container_get_major_axis_allocated_sizes, linearPlacementLoop]
    norm_num

theorem linear_container_sequential_placement_witness :
    ([((0 : ℚ), (10 : ℚ)), (15, 20)]).length = ([(10 : ℚ), 20]).length :=
  ((linear_container_sequential_placement 35 99 5 [10, 20]).2.1 [(0, 10), (15, 20)]
    (linear_container_sequential_placement 35 99 5 [10, 20]).2.2).1

/-- C8: requesting any explicit proportions on a linear container makes the
major-axis allocation raise `NotImplementedError` (for both `Row` width
allocation and `Column` height allocation), while `proportions = None`
never raises it. -/
theorem proportions_unsupported :
    (∀ (alloc spacing : ℚ) (reqs : List ℚ) (props : Option Proportions),
      (props ≠ none →
        _linear_container_get_major_axis_allocated_sizes alloc reqs spacing props
          = .error .notImplemented)
      ∧ (props = none →
        ∃ l, _linear_container_get_major_axis_allocated_sizes alloc reqs spacing props
          = .ok l))
    ∧ (∀ (are s : LState) (ww : ℚ) (c : Component), c.data.kind = .Row →
        (c.data.proportions ≠ none →
          _update_allocated_width are ww s c = .error .notImplemented)
        ∧ (c.data.proportions = none →
          ∃ s2, _update_allocated_width are ww s c = .ok s2))
    ∧ (∀ (are s : LState) (wh : ℚ) (c : Component), c.data.kind = .Column →
        (c.data.proportions ≠ none →
          _update_allocated_height are wh s c = .error .notImplemented)
        ∧ (c.data.proportions = none →
          ∃ s2, _update_allocated_height are wh s c = .ok s2)) := by
  have hlin : ∀ (alloc spacing : ℚ) (reqs : List ℚ) (props : Option Proportions),
      (props ≠ none →
        _linear_container_get_major_axis_allocated_sizes alloc reqs spacing props
          = .error .notImplemented)
      ∧ (props = none →
        ∃ l, _linear_container_get_major_axis_allocated_sizes alloc reqs spacing props
          = .ok l) := by
    intro alloc spacing reqs props
    constructor
    · intro hne
      cases props with
      | none => exact absurd rfl hne
      | some q => rfl
    · intro he
      subst he
      exact ⟨_, rfl⟩
  refine ⟨hlin, ?_, ?_⟩
  · intro are s ww c hk
    constructor
    · intro hne
      rw [_update_allocated_width, hk]
      rw [_update_allocated_width_Row]
      rw [(hlin _ _ _ _).1 hne]
    · intro he
      rw [_update_allocated_width, hk, _update_allocated_width_Row, he]
      exact ⟨_, rfl⟩
  · intro are s wh c hk
    constructor
    · intro hne
      rw [_update_allocated_height, hk]
      rw [_update_allocated_height_Column]
      rw [(hlin _ _ _ _).1 hne]
    · intro he
      rw [_update_allocated_height, hk, _update_allocated_height_Column, he]
      exact ⟨_, rfl⟩

theorem proportions_unsupported_witness :
    _update_allocated_width exAre 100 exAre exProportionsRow = .error .notImplemented
      ∧ _update_allocated_height exAre 100 exAre exProportionsColumn
        = .error .notImplemented :=
  ⟨(proportions_unsupported.2.1 exAre exAre 100 exProportionsRow rfl).1 (by
      simp [exProportionsRow, Component.data, plainData]),
    (proportions_unsupported.2.2 exAre exAre 100 exProportionsColumn rfl).1 (by
      simp [exProportionsColumn, Component.data, plainData])⟩

theorem countN_append (t : Nat) (l1 l2 : List Nat) :
    countN t (l1 ++ l2) = countN t l1 + countN t l2 := by
  induction l1 with
  | nil => simp [countN]
  | cons a l ih => rw [List.cons_append, countN, countN, ih]; omega

theorem countN_eq_zero_of_not_mem {t : Nat} {l : List Nat} (h : t ∉ l) :
    countN t l = 0 := by
  induction l with
  | nil => rfl
  | cons a l ih =>
      rw [countN]
      have ha : a ≠ t := fun he => h (he ▸ List.mem_cons_self a l)
      have h2 : t ∉ l := fun he => h (List.mem_cons_of_mem _ he)
      rw [if_neg ha, ih h2]

theorem countN_pos_of_mem {t : Nat} {l : List Nat} (h : t ∈ l) : 1 ≤ countN t l := by
  induction l with
  | nil => simp at h
  | cons a l ih =>
      rw [countN]
      rcases List.mem_cons.mp h with rfl | h2
      · rw [if_pos rfl]; omega
      · have := ih h2; omega

theorem countN_le_one_of_nodup {l : List Nat} (h : l.Nodup) (t : Nat) :
    countN t l ≤ 1 := by
  induction l with
  | nil => simp [countN]
  | cons a l ih =>
      obtain ⟨ha, hl⟩ := List.nodup_cons.mp h
      rw [countN]
      by_cases he : a = t
      · subst he
        rw [if_pos rfl, countN_eq_zero_of_not_mem ha]
      · rw [if_neg he]
        have := ih hl
        omega

theorem nodup_of_countN_le_one {l : List Nat} (h : ∀ t, countN t l ≤ 1) : l.Nodup := by
  induction l with
  | nil => simp
  | cons a l ih =>
      rw [List.nodup_cons]
      constructor
      · intro hmem
        have h1 := countN_pos_of_mem hmem
        have h2 := h a
        rw [countN, if_pos rfl] at h2
        omega
      · apply ih
        intro t
        have h2 := h t
        rw [countN] at h2
        omega

theorem childSlotIds_append (l1 l2 : List Component) :
    childSlotIds (l1 ++ l2) = childSlotIds l1 ++ childSlotIds l2 := by
  induction l1 with
  | nil => simp [childSlotIds]
  | cons c cs ih => rw [List.cons_append, childSlotIds, childSlotIds, ih, List.append_assoc]

mutual
theorem slotCount_preorder : ∀ (c : Component) (t : Nat),
    countN t (childSlotIds (preorder c)) + (if c._id = t then 1 else 0)
      = countN t ((preorder c).map Component._id)
  | .mk d cs, t => by
      rw [preorder, childSlotIds, List.map_cons, countN, countN_append]
      have hl := slotCount_preorderList cs t
      have hch : (Component.mk d cs).children = cs := rfl
      rw [hch]
      omega

theorem slotCount_preorderList : ∀ (l : List Component) (t : Nat),
    countN t (childSlotIds (preorderList l)) + countN t (l.map Component._id)
      = countN t ((preorderList l).map Component._id)
  | [], t => by simp [preorderList, childSlotIds, countN]
  | c :: cs, t => by
      rw [preorderList, List.map_cons, List.map_append, countN, countN_append,
        childSlotIds_append, countN_append]
      have h1 := slotCount_preorder c t
      have h2 := slotCount_preorderList cs t
      omega
end

theorem wf_id_inj {root : Component} (hwf : WellFormedIds root) :
    ∀ a ∈ preorder root, ∀ b ∈ preorder root, a._id = b._id → a = b := by
  intro a ha b hb h
  exact List.inj_on_of_nodup_map hwf ha hb h

theorem wf_slotCount_le_one {root : Component} (hwf : WellFormedIds root) (t : Nat) :
    countN t (childSlotIds (preorder root)) ≤ 1 := by
  have h1 := slotCount_preorder root t
  have h2 := countN_le_one_of_nodup hwf t
  omega

theorem wf_root_slotCount_zero {root : Component} (hwf : WellFormedIds root) :
    countN root._id (childSlotIds (preorder root)) = 0 := by
  have h1 := slotCount_preorder root root._id
  rw [if_pos rfl] at h1
  have h2 := countN_le_one_of_nodup hwf root._id
  omega

theorem slotCount_ge_one_of_child {root p x : Component}
    (hp : p ∈ preorder root) (hx : x ∈ p.children) :
    1 ≤ countN x._id (childSlotIds (preorder root)) := by
  obtain ⟨A, B, hAB⟩ := preorder_infix_of_mem root p hp
  rw [hAB, childSlotIds_append, childSlotIds_append, countN_append, countN_append]
  rw [preorder_eq p, childSlotIds, countN_append]
  have h1 : 1 ≤ countN x._id (p.children.map Component._id) :=
    countN_pos_of_mem (List.mem_map_of_mem _ hx)
  omega

theorem wf_unique_parent {root p x : Component} (hwf : WellFormedIds root)
    (hp : p ∈ preorder root) (hx : x ∈ p.children) :
    ∀ q ∈ preorder root, x._id ∈ q.children.map Component._id → q = p := by
  intro q hq hqx
  by_contra hne
  obtain ⟨U, V, hUV⟩ := List.append_of_mem hp
  have hqUV : q ∈ U ∨ q ∈ V := by
    rw [hUV] at hq
    rcases List.mem_append.mp hq with h | h
    · exact Or.inl h
    · rcases List.mem_cons.mp h with rfl | h2
      · exact absurd rfl hne
      · exact Or.inr h2
  have hq1 : ∀ L : List Component, q ∈ L → 1 ≤ countN x._id (childSlotIds L) := by
    intro L hL
    obtain ⟨L1, L2, hL12⟩ := List.append_of_mem hL
    rw [hL12, childSlotIds_append, childSlotIds, countN_append, countN_append]
    have := countN_pos_of_mem hqx
    omega
  have hcount : 2 ≤ countN x._id (childSlotIds (preorder root)) := by
    rw [hUV, childSlotIds_append, childSlotIds, countN_append, countN_append]
    have hpx : 1 ≤ countN x._id (p.children.map Component._id) :=
      countN_pos_of_mem (List.mem_map_of_mem _ hx)
    rcases hqUV with h | h
    · have := hq1 U h; omega
    · have := hq1 V h; omega
  have := wf_slotCount_le_one hwf x._id
  omega

theorem wf_child_id_ne_root {root p x : Component} (hwf : WellFormedIds root)
    (hp : p ∈ preorder root) (hx : x ∈ p.children) : x._id ≠ root._id := by
  intro he
  have h1 := slotCount_ge_one_of_child hp hx
  rw [he] at h1
  have h2 := wf_root_slotCount_zero hwf
  omega

theorem wf_not_self_child {root p x : Component} (hwf : WellFormedIds root)
    (hp : p ∈ preorder root) (hx : x ∈ p.children) :
    x._id ∉ x.children.map Component._id := by
  intro hmem
  have hxr : x ∈ preorder root := mem_preorder_trans hp (child_mem_preorder hx)
  have hxp : x ≠ p := by
    intro he
    have := nodeCount_lt_of_mem_children hx
    rw [he] at this
    omega
  exact hxp (wf_unique_parent hwf hp hx x hxr hmem)

theorem wf_children_map_nodup {root p : Component} (hwf : WellFormedIds root)
    (hp : p ∈ preorder root) : (p.children.map Component._id).Nodup := by
  apply nodup_of_countN_le_one
  intro t
  obtain ⟨A, B, hAB⟩ := preorder_infix_of_mem root p hp
  have hle := wf_slotCount_le_one hwf t
  rw [hAB, childSlotIds_append, childSlotIds_append, preorder_eq p, childSlotIds,
    countN_append, countN_append, countN_append] at hle
  omega

theorem wf_preorder_nodup {root : Component} (hwf : WellFormedIds root) :
    (preorder root).Nodup :=
  List.Nodup.of_map _ hwf

theorem wf_ordered_nodup {root : Component} (hwf : WellFormedIds root) :
    (_get_toposorted root).Nodup :=
  ((get_toposorted_perm root).nodup_iff).mpr (wf_preorder_nodup hwf)

/-- Under distinct ids, every node of the tree other than `x`'s unique
parent `p` and `x` itself neither shares `x`'s id nor has `x`'s id among
its children's ids. -/
theorem wf_writer_classification {root p x : Component} (hwf : WellFormedIds root)
    (hp : p ∈ preorder root) (hx : x ∈ p.children) :
    ∀ e ∈ preorder root, e = p ∨ e = x ∨
      (e._id ≠ x._id ∧ x._id ∉ e.children.map Component._id) := by
  intro e he
  by_cases h1 : x._id ∈ e.children.map Component._id
  · exact Or.inl (wf_unique_parent hwf hp hx e he h1)
  · by_cases h2 : e._id = x._id
    · exact Or.inr (Or.inl
        (wf_id_inj hwf e he x (mem_preorder_trans hp (child_mem_preorder hx)) h2))
    · exact Or.inr (Or.inr ⟨h2, h1⟩)

theorem nodup_middle_split {α : Type} {l1 l2 : List α} {a : α}
    (h : (l1 ++ a :: l2).Nodup) : a ∉ l1 ∧ a ∉ l2 := by
  rw [List.nodup_append] at h
  obtain ⟨h1, h2, h3⟩ := h
  refine ⟨fun hA => h3 hA (List.mem_cons_self _ _), ?_⟩
  exact (List.nodup_cons.mp h2).1

theorem except_bind_ok {α β : Type} {x : Except LayoutError α} {f : α → Except LayoutError β}
    {b : β} (h : (x >>= f) = .ok b) : ∃ a, x = .ok a ∧ f a = .ok b := by
  cases x with
  | ok a => exact ⟨a, rfl, h⟩
  | error e => simp [Bind.bind, Except.bind] at h

theorem foldl_setRec_frame {β : Type} (idf : β → Nat) (g : LState → β → UnittestComponentLayout) :
    ∀ (l : List β) (s : LState) (j : Nat), j ∉ l.map idf →
      (l.foldl (fun t e => setRec t (idf e) (g t e)) s) j = s j := by
  intro l
  induction l with
  | nil => intro s j _; rfl
  | cons e es ih =>
      intro s j h
      rw [List.map_cons] at h
      have h1 : j ≠ idf e := fun he => h (he ▸ List.mem_cons_self _ _)
      have h2 : j ∉ es.map idf := fun he => h (List.mem_cons_of_mem _ he)
      rw [List.foldl_cons, ih _ _ h2, setRec, if_neg h1]

theorem foldl_setRec_value {β : Type} (idf : β → Nat) (g : LState → β → UnittestComponentLayout)
    (hg : ∀ t t2 e, t (idf e) = t2 (idf e) → g t e = g t2 e) :
    ∀ (u : List β) (e : β) (v : List β) (s : LState),
      idf e ∉ u.map idf → idf e ∉ v.map idf →
      ((u ++ e :: v).foldl (fun t x => setRec t (idf x) (g t x)) s) (idf e) = g s e := by
  intro u e v s hu hv
  rw [List.foldl_append, List.foldl_cons]
  rw [foldl_setRec_frame idf g v _ _ hv]
  rw [setRec, if_pos rfl]
  exact hg _ _ _ (foldl_setRec_frame idf g u s _ hu)

theorem foldl_setRec_preserveField {β : Type} (idf : β → Nat)
    (g : LState → β → UnittestComponentLayout) (F : UnittestComponentLayout → ℚ)
    (hg : ∀ t e, F (g t e) = F (t (idf e))) :
    ∀ (l : List β) (s : LState) (j : Nat),
      F ((l.foldl (fun t e => setRec t (idf e) (g t e)) s) j) = F (s j) := by
  intro l
  induction l with
  | nil => intro s j; rfl
  | cons e es ih =>
      intro s j
      rw [List.foldl_cons, ih]
      rw [setRec]
      by_cases he : j = idf e
      · rw [if_pos he, hg, he]
      · rw [if_neg he]

theorem foldlM_ok_frame {step : LState → Component → Except LayoutError LState} :
    ∀ (l : List Component) (s s2 : LState) (j : Nat),
      l.foldlM step s = .ok s2 →
      (∀ t t2 c, c ∈ l → step t c = .ok t2 → t2 j = t j) →
      s2 j = s j := by
  intro l
  induction l with
  | nil =>
      intro s s2 j h _
      simp [List.foldlM, pure, Except.pure] at h
      rw [h]
  | cons c cs ih =>
      intro s s2 j h hstep
      rw [List.foldlM_cons] at h
      obtain ⟨t, ht, ht2⟩ := except_bind_ok h
      rw [ih t s2 j ht2 (fun a b d hd => hstep a b d (List.mem_cons_of_mem _ hd))]
      exact hstep s t c (List.mem_cons_self _ _) ht

theorem foldlM_ok_preserveField {step : LState → Component → Except LayoutError LState}
    (F : UnittestComponentLayout → ℚ) :
    ∀ (l : List Component) (s s2 : LState),
      l.foldlM step s = .ok s2 →
      (∀ t t2 c, c ∈ l → step t c = .ok t2 → ∀ j, F (t2 j) = F (t j)) →
      ∀ j, F (s2 j) = F (s j) := by
  intro l
  induction l with
  | nil =>
      intro s s2 h _ j
      simp [List.foldlM, pure, Except.pure] at h
      rw [h]
  | cons c cs ih =>
      intro s s2 h hstep j
      rw [List.foldlM_cons] at h
      obtain ⟨t, ht, ht2⟩ := except_bind_ok h
      rw [ih t s2 ht2 (fun a b d hd => hstep a b d (List.mem_cons_of_mem _ hd))]
      exact hstep s t c (List.mem_cons_self _ _) ht j

theorem foldlM_error_kind {step : LState → Component → Except LayoutError LState} :
    ∀ (l : List Component) (s : LState) (e : LayoutError),
      (∀ t c e2, c ∈ l → step t c = .error e2 → e2 = .notImplemented) →
      l.foldlM step s = .error e → e = .notImplemented := by
  intro l
  induction l with
  | nil =>
      intro s e _ h
      simp [List.foldlM, pure, Except.pure] at h
  | cons c cs ih =>
      intro s e hstep h
      rw [List.foldlM_cons] at h
      cases hc : step s c with
      | ok t =>
          rw [hc] at h
          simp only [Bind.bind, Except.bind] at h
          exact ih t e (fun a b d hd => hstep a b d (List.mem_cons_of_mem _ hd)) h
      | error e2 =>
          rw [hc] at h
          simp only [Bind.bind, Except.bind] at h
          cases h
          exact hstep s c e (List.mem_cons_self _ _) hc

theorem not_mem_map_const {β : Type} {l : List β} {i j : Nat} (hj : j ≠ i) :
    j ∉ l.map (fun _ => i) := by
  intro hm
  obtain ⟨e, _, hee⟩ := List.mem_map.mp hm
  exact hj hee.symm

theorem not_mem_zip_fst_ids {sas : List (ℚ × ℚ)} {children : List Component} {j : Nat}
    (h : j ∉ children.map Component._id) :
    j ∉ (children.zip sas).map (fun p => p.1._id) := by
  intro hmem
  obtain ⟨p, hp, hpe⟩ := List.mem_map.mp hmem
  rcases p with ⟨ch, sz⟩
  have h1 := (List.of_mem_zip hp).1
  apply h
  rw [← hpe]
  exact List.mem_map_of_mem _ h1


theorem foldl_pt_frame {β : Type} (f : LState → β → LState) (j : Nat) :
    ∀ (l : List β) (s : LState), (∀ t e, e ∈ l → (f t e) j = t j) →
      (l.foldl f s) j = s j := by
  intro l
  induction l with
  | nil => intro s _; rfl
  | cons e es ih =>
      intro s hf
      rw [List.foldl_cons, ih _ (fun t a ha => hf t a (List.mem_cons_of_mem _ ha)),
        hf s e (List.mem_cons_self _ _)]

theorem foldl_pt_preserveField {β : Type} (F : UnittestComponentLayout → ℚ)
    (f : LState → β → LState) (j : Nat) :
    ∀ (l : List β) (s : LState), (∀ t e, e ∈ l → F ((f t e) j) = F (t j)) →
      F ((l.foldl f s) j) = F (s j) := by
  intro l
  induction l with
  | nil => intro s _; rfl
  | cons e es ih =>
      intro s hf
      rw [List.foldl_cons, ih _ (fun t a ha => hf t a (List.mem_cons_of_mem _ ha)),
        hf s e (List.mem_cons_self _ _)]

theorem update_natural_width_frame {are s : LState} {c : Component} {j : Nat}
    (hj : j ≠ c._id) : (_update_natural_width are s c) j = s j := by
  cases hk : c.data.kind with
  | Row =>
      simp only [_update_natural_width, hk, _update_natural_width_Row]
      rw [setRec, if_neg hj]
  | Column =>
      simp only [_update_natural_width, hk, _update_natural_width_Column,
        Component._iter_direct_children]
      refine (foldl_pt_frame _ _ _ _ ?_).trans ?_
      · intro t e _
        rw [setRec, if_neg hj]
      · rw [setRec, if_neg hj]
  | Overlay =>
      simp only [_update_natural_width, hk, _update_natural_width_Overlay]
      rw [setRec, if_neg hj]
  | SingleContainer =>
      simp only [_update_natural_width, hk, _update_natural_width_SingleContainer,
        iter_direct_tree_children]
      refine (foldl_pt_frame _ _ _ _ ?_).trans ?_
      · intro t e _
        rw [setRec, if_neg hj]
      · rw [setRec, if_neg hj]
  | Default =>
      simp only [_update_natural_width, hk]
      rw [setRec, if_neg hj]

theorem widthRequestStep_frame {are s : LState} {c : Component} {j : Nat}
    (hj : j ≠ c._id) : (widthRequestStep are s c) j = s j := by
  simp only [widthRequestStep]
  rw [setRec, if_neg hj, update_natural_width_frame hj, setRec, if_neg hj]

theorem foldl_widthRequestStep_frame (are : LState) :
    ∀ (l : List Component) (s : LState) (j : Nat), (∀ c ∈ l, j ≠ c._id) →
      (l.foldl (widthRequestStep are) s) j = s j := by
  intro l
  induction l with
  | nil => intro s j _; rfl
  | cons c cs ih =>
      intro s j h
      rw [List.foldl_cons, ih _ _ (fun e he => h e (List.mem_cons_of_mem _ he)),
        widthRequestStep_frame (h c (List.mem_cons_self _ _))]

theorem update_natural_width_preserveField (F : UnittestComponentLayout → ℚ)
    (h1 : ∀ (r : UnittestComponentLayout) (a : ℚ), F { r with natural_width := a } = F r)
    {are s : LState} {c : Component} :
    ∀ j, F ((_update_natural_width are s c) j) = F (s j) := by
  intro j
  by_cases hj : j = c._id
  · subst hj
    cases hk : c.data.kind with
    | Row =>
        simp only [_update_natural_width, hk, _update_natural_width_Row]
        rw [setRec, if_pos rfl, h1]
    | Column =>
        simp only [_update_natural_width, hk, _update_natural_width_Column,
          Component._iter_direct_children]
        refine (foldl_pt_preserveField F _ _ _ _ ?_).trans ?_
        · intro t e _
          rw [setRec, if_pos rfl, h1]
        · rw [setRec, if_pos rfl, h1]
    | Overlay =>
        simp only [_update_natural_width, hk, _update_natural_width_Overlay]
        rw [setRec, if_pos rfl, h1]
    | SingleContainer =>
        simp only [_update_natural_width, hk, _update_natural_width_SingleContainer,
          iter_direct_tree_children]
        refine (foldl_pt_preserveField F _ _ _ _ ?_).trans ?_
        · intro t e _
          rw [setRec, if_pos rfl, h1]
        · rw [setRec, if_pos rfl, h1]
    | Default =>
        simp only [_update_natural_width, hk]
        rw [setRec, if_pos rfl, h1]
  · rw [update_natural_width_frame hj]

/-- At its own id, step 1 only rewrites the natural width and the two
requested widths of the freshly initialized sentinel record: in
particular the outer left position is still the sentinel `-1`. -/
theorem widthRequestStep_self_left_outer (are s : LState) (c : Component) :
    ((widthRequestStep are s c) c._id).left_in_viewport_outer = -1 := by
  simp only [widthRequestStep]
  rw [setRec, if_pos rfl]
  show ((_update_natural_width are (setRec s c._id unpopulatedLayout) c)
    c._id).left_in_viewport_outer = -1
  rw [update_natural_width_preserveField (fun r => r.left_in_viewport_outer)
    (fun r a => rfl) c._id]
  rw [setRec, if_pos rfl]
  rfl

theorem widthRequestStep_self_default_natural (are s : LState) (c : Component)
    (hk : c.data.kind = .Default) :
    ((widthRequestStep are s c) c._id).natural_width = (are c._id).natural_width := by
  simp only [widthRequestStep, _update_natural_width, hk]
  rw [setRec, if_pos rfl]
  show ((setRec (setRec s c._id unpopulatedLayout) c._id
    { (setRec s c._id unpopulatedLayout) c._id with
      natural_width := (are c._id).natural_width }) c._id).natural_width
    = (are c._id).natural_width
  rw [setRec, if_pos rfl]

theorem foldl_pt_last_value {β : Type} (f : LState → β → LState) (j : Nat)
    (u : List β) (e : β) (v : List β) (s : LState)
    (hu : ∀ t a, a ∈ u → (f t a) j = t j)
    (hv : ∀ t a, a ∈ v → (f t a) j = t j)
    (hstep : ∀ t t2, t j = t2 j → (f t e) j = (f t2 e) j) :
    ((u ++ e :: v).foldl f s) j = (f s e) j := by
  rw [List.foldl_append, List.foldl_cons]
  refine (foldl_pt_frame f j v _ hv).trans ?_
  exact hstep _ _ (foldl_pt_frame f j u s hu)

theorem widthAllocStep_frame {are : LState} {ww : ℚ} {s s2 : LState} {c : Component} {j : Nat}
    (h : widthAllocStep are ww s c = .ok s2) (hj1 : j ≠ c._id)
    (hj2 : j ∉ c.children.map Component._id) : s2 j = s j := by
  simp only [widthAllocStep] at h
  cases hk : c.data.kind with
  | Row =>
      simp only [_update_allocated_width, hk, _update_allocated_width_Row,
        Component._iter_direct_children] at h
      split at h
      · exact absurd h (by simp)
      · simp only [Except.ok.injEq] at h
        subst h
        refine (foldl_pt_frame _ _ _ _ ?_).trans ?_
        · intro t e he
          rcases e with ⟨ch, sz⟩
          have hch := (List.of_mem_zip he).1
          have hne : j ≠ ch._id := fun hee => hj2 (hee ▸ List.mem_map_of_mem _ hch)
          rw [setRec, if_neg hne]
        · rw [setRec, if_neg hj1]
  | Column =>
      simp only [_update_allocated_width, hk, _update_allocated_width_Column,
        Component._iter_direct_children, Except.ok.injEq] at h
      subst h
      refine (foldl_pt_frame _ _ _ _ ?_).trans ?_
      · intro t e he
        have hne : j ≠ e._id := fun hee => hj2 (hee ▸ List.mem_map_of_mem _ he)
        rw [setRec, if_neg hne]
      · rw [setRec, if_neg hj1]
  | Overlay =>
      simp only [_update_allocated_width, hk, _update_allocated_width_Overlay,
        Component._iter_direct_children] at h
      cases hcs : c.children with
      | nil =>
          rw [hcs] at h
          simp only [Except.ok.injEq] at h
          subst h
          rw [setRec, if_neg hj1]
      | cons content rest =>
          rw [hcs] at h
          simp only [Except.ok.injEq] at h
          subst h
          have hcsm : content ∈ c.children := by
            rw [hcs]
            exact List.mem_cons_self _ _
          have hne : j ≠ content._id := fun hee => hj2 (hee ▸ List.mem_map_of_mem _ hcsm)
          rw [setRec, if_neg hne, setRec, if_neg hj1]
  | SingleContainer =>
      simp only [_update_allocated_width, hk, _update_allocated_width_SingleContainer,
        iter_direct_tree_children, Except.ok.injEq] at h
      subst h
      refine (foldl_pt_frame _ _ _ _ ?_).trans ?_
      · intro t e he
        have hne : j ≠ e._id := fun hee => hj2 (hee ▸ List.mem_map_of_mem _ he)
        rw [setRec, if_neg hne]
      · rw [setRec, if_neg hj1]
  | Default =>
      simp only [_update_allocated_width, hk, iter_direct_tree_children,
        Except.ok.injEq] at h
      subst h
      refine (foldl_pt_frame _ _ _ _ ?_).trans ?_
      · intro t e he
        have hne : j ≠ e._id := fun hee => hj2 (hee ▸ List.mem_map_of_mem _ he)
        rw [setRec, if_neg hne]
      · rw [setRec, if_neg hj1]

/-- At its own id, step 2 assigns exactly the inner left position and the
allocated inner width derived by `calculate_alignment`, leaving every other
field of the record untouched. -/
theorem widthAllocStep_self {are : LState} {ww : ℚ} {s s2 : LState} {c : Component}
    (h : widthAllocStep are ww s c = .ok s2) (hc : c._id ∉ c.children.map Component._id) :
    s2 c._id = { s c._id with
      left_in_viewport_inner := (s c._id).left_in_viewport_outer
        + (calculate_alignment (s c._id).allocated_outer_width
            (s c._id).requested_inner_width c.data._effective_margin_left
            c.data._effective_margin_right c.data.align_x).1,
      allocated_inner_width :=
        (calculate_alignment (s c._id).allocated_outer_width (s c._id).requested_inner_width
          c.data._effective_margin_left c.data._effective_margin_right c.data.align_x).2 } := by
  simp only [widthAllocStep] at h
  cases hk : c.data.kind with
  | Row =>
      simp only [_update_allocated_width, hk, _update_allocated_width_Row,
        Component._iter_direct_children] at h
      split at h
      · exact absurd h (by simp)
      · simp only [Except.ok.injEq] at h
        subst h
        refine (foldl_pt_frame _ _ _ _ ?_).trans ?_
        · intro t e he
          rcases e with ⟨ch, sz⟩
          have hch := (List.of_mem_zip he).1
          have hne : c._id ≠ ch._id := fun hee => hc (hee ▸ List.mem_map_of_mem _ hch)
          rw [setRec, if_neg hne]
        · rw [setRec, if_pos rfl]
  | Column =>
      simp only [_update_allocated_width, hk, _update_allocated_width_Column,
        Component._iter_direct_children, Except.ok.injEq] at h
      subst h
      refine (foldl_pt_frame _ _ _ _ ?_).trans ?_
      · intro t e he
        have hne : c._id ≠ e._id := fun hee => hc (hee ▸ List.mem_map_of_mem _ he)
        rw [setRec, if_neg hne]
      · rw [setRec, if_pos rfl]
  | Overlay =>
      simp only [_update_allocated_width, hk, _update_allocated_width_Overlay,
        Component._iter_direct_children] at h
      cases hcs : c.children with
      | nil =>
          rw [hcs] at h
          simp only [Except.ok.injEq] at h
          subst h
          rw [setRec, if_pos rfl]
      | cons content rest =>
          rw [hcs] at h
          simp only [Except.ok.injEq] at h
          subst h
          have hcsm : content ∈ c.children := by
            rw [hcs]
            exact List.mem_cons_self _ _
          have hne : c._id ≠ content._id := fun hee => hc (hee ▸ List.mem_map_of_mem _ hcsm)
          rw [setRec, if_neg hne, setRec, if_pos rfl]
  | SingleContainer =>
      simp only [_update_allocated_width, hk, _update_allocated_width_SingleContainer,
        iter_direct_tree_children, Except.ok.injEq] at h
      subst h
      refine (foldl_pt_frame _ _ _ _ ?_).trans ?_
      · intro t e he
        have hne : c._id ≠ e._id := fun hee => hc (hee ▸ List.mem_map_of_mem _ he)
        rw [setRec, if_neg hne]
      · rw [setRec, if_pos rfl]
  | Default =>
      simp only [_update_allocated_width, hk, iter_direct_tree_children,
        Except.ok.injEq] at h
      subst h
      refine (foldl_pt_frame _ _ _ _ ?_).trans ?_
      · intro t e he
        have hne : c._id ≠ e._id := fun hee => hc (hee ▸ List.mem_map_of_mem _ he)
        rw [setRec, if_neg hne]
      · rw [setRec, if_pos rfl]

/-- The default width-allocation fallback assigns a child ONLY its reported
allocated outer width: in particular the child's outer left position is not
assigned. -/
theorem widthAllocStep_default_child {are : LState} {ww : ℚ} {s s2 : LState}
    {c x : Component} (h : widthAllocStep are ww s c = .ok s2)
    (hk : c.data.kind = .Default) (hx : x ∈ c.children)
    (hnd : (c.children.map Component._id).Nodup) (hcx : c._id ≠ x._id) :
    s2 x._id = { s x._id with allocated_outer_width := (are x._id).allocated_outer_width } := by
  simp only [widthAllocStep, _update_allocated_width, hk, iter_direct_tree_children,
    Except.ok.injEq] at h
  subst h
  obtain ⟨u, v, huv⟩ := List.append_of_mem hx
  have hids : x._id ∉ u.map Component._id ∧ x._id ∉ v.map Component._id := by
    rw [huv, List.map_append, List.map_cons] at hnd
    exact nodup_middle_split hnd
  rw [huv]
  refine (foldl_pt_last_value _ x._id u x v _ ?_ ?_ ?_).trans ?_
  · intro t a ha
    have hne : x._id ≠ a._id := fun hee => hids.1 (hee ▸ List.mem_map_of_mem _ ha)
    rw [setRec, if_neg hne]
  · intro t a ha
    have hne : x._id ≠ a._id := fun hee => hids.2 (hee ▸ List.mem_map_of_mem _ ha)
    rw [setRec, if_neg hne]
  · intro t t2 ht
    rw [setRec, if_pos rfl, setRec, if_pos rfl, ht]
  · rw [setRec, if_pos rfl, setRec, if_neg (fun hee => hcx hee.symm)]

/-- The overlay width allocation pins its single tree child to outer left 0
and the full window width, leaving the rest of the child's record alone. -/
theorem widthAllocStep_overlay_child {are : LState} {ww : ℚ} {s s2 : LState}
    {c x : Component} (h : widthAllocStep are ww s c = .ok s2)
    (hk : c.data.kind = .Overlay) (hcs : c.children = [x]) (hcx : c._id ≠ x._id) :
    s2 x._id = { s x._id with
      left_in_viewport_outer := 0, allocated_outer_width := ww } := by
  simp only [widthAllocStep, _update_allocated_width, hk, _update_allocated_width_Overlay,
    Component._iter_direct_children, hcs] at h
  simp only [Except.ok.injEq] at h
  subst h
  rw [setRec, if_pos rfl, setRec, if_neg (fun hee => hcx hee.symm)]

theorem widthAllocStep_preserveField (F : UnittestComponentLayout → ℚ)
    (h1 : ∀ (r : UnittestComponentLayout) (a b : ℚ),
      F { r with left_in_viewport_inner := a, allocated_inner_width := b } = F r)
    (h2 : ∀ (r : UnittestComponentLayout) (a b : ℚ),
      F { r with left_in_viewport_outer := a, allocated_outer_width := b } = F r)
    (h3 : ∀ (r : UnittestComponentLayout) (a : ℚ),
      F { r with allocated_outer_width := a } = F r)
    {are : LState} {ww : ℚ} {s s2 : LState} {c : Component}
    (h : widthAllocStep are ww s c = .ok s2) :
    ∀ j, F (s2 j) = F (s j) := by
  intro j
  have hw1 : ∀ (t : LState) (i : Nat) (a b : ℚ) (jj : Nat),
      F ((setRec t i { t i with left_in_viewport_inner := a, allocated_inner_width := b }) jj)
        = F (t jj) := by
    intro t i a b jj
    rw [setRec]
    by_cases hji : jj = i
    · rw [if_pos hji, h1, hji]
    · rw [if_neg hji]
  have hw2 : ∀ (t : LState) (i : Nat) (a b : ℚ) (jj : Nat),
      F ((setRec t i { t i with left_in_viewport_outer := a, allocated_outer_width := b }) jj)
        = F (t jj) := by
    intro t i a b jj
    rw [setRec]
    by_cases hji : jj = i
    · rw [if_pos hji, h2, hji]
    · rw [if_neg hji]
  have hw3 : ∀ (t : LState) (i : Nat) (a : ℚ) (jj : Nat),
      F ((setRec t i { t i with allocated_outer_width := a }) jj) = F (t jj) := by
    intro t i a jj
    rw [setRec]
    by_cases hji : jj = i
    · rw [if_pos hji, h3, hji]
    · rw [if_neg hji]
  simp only [widthAllocStep] at h
  cases hk : c.data.kind with
  | Row =>
      simp only [_update_allocated_width, hk, _update_allocated_width_Row,
        Component._iter_direct_children] at h
      split at h
      · exact absurd h (by simp)
      · simp only [Except.ok.injEq] at h
        subst h
        refine (foldl_pt_preserveField F _ _ _ _ ?_).trans (hw1 _ _ _ _ _)
        intro t e _
        exact hw2 t e.1._id _ _ j
  | Column =>
      simp only [_update_allocated_width, hk, _update_allocated_width_Column,
        Component._iter_direct_children, Except.ok.injEq] at h
      subst h
      refine (foldl_pt_preserveField F _ _ _ _ ?_).trans (hw1 _ _ _ _ _)
      intro t e _
      exact hw2 t e._id _ _ j
  | Overlay =>
      simp only [_update_allocated_width, hk, _update_allocated_width_Overlay,
        Component._iter_direct_children] at h
      cases hcs : c.children with
      | nil =>
          rw [hcs] at h
          simp only [Except.ok.injEq] at h
          subst h
          exact hw1 _ _ _ _ _
      | cons content rest =>
          rw [hcs] at h
          simp only [Except.ok.injEq] at h
          subst h
          exact (hw2 _ content._id _ _ j).trans (hw1 _ _ _ _ _)
  | SingleContainer =>
      simp only [_update_allocated_width, hk, _update_allocated_width_SingleContainer,
        iter_direct_tree_children, Except.ok.injEq] at h
      subst h
      refine (foldl_pt_preserveField F _ _ _ _ ?_).trans (hw1 _ _ _ _ _)
      intro t e _
      exact hw2 t e._id _ _ j
  | Default =>
      simp only [_update_allocated_width, hk, iter_direct_tree_children,
        Except.ok.injEq] at h
      subst h
      refine (foldl_pt_preserveField F _ _ _ _ ?_).trans (hw1 _ _ _ _ _)
      intro t e _
      exact hw3 t e._id _ j

theorem update_natural_height_frame {are s : LState} {c : Component} {j : Nat}
    (hj : j ≠ c._id) : (_update_natural_height are s c) j = s j := by
  cases hk : c.data.kind with
  | Row =>
      simp only [_update_natural_height, hk, _update_natural_height_Row,
        Component._iter_direct_children]
      refine (foldl_pt_frame _ _ _ _ ?_).trans ?_
      · intro t e _
        rw [setRec, if_neg hj]
      · rw [setRec, if_neg hj]
  | Column =>
      simp only [_update_natural_height, hk, _update_natural_height_Column]
      rw [setRec, if_neg hj]
  | Overlay =>
      simp only [_update_natural_height, hk, _update_natural_height_Overlay]
      rw [setRec, if_neg hj]
  | SingleContainer =>
      simp only [_update_natural_height, hk, _update_natural_height_SingleContainer,
        iter_direct_tree_children]
      refine (foldl_pt_frame _ _ _ _ ?_).trans ?_
      · intro t e _
        rw [setRec, if_neg hj]
      · rw [setRec, if_neg hj]
  | Default =>
      simp only [_update_natural_height, hk]
      rw [setRec, if_neg hj]

theorem heightRequestStep_frame {are s : LState} {c : Component} {j : Nat}
    (hj : j ≠ c._id) : (heightRequestStep are s c) j = s j := by
  simp only [heightRequestStep]
  rw [setRec, if_neg hj, update_natural_height_frame hj]

theorem update_natural_height_preserveField (F : UnittestComponentLayout → ℚ)
    (h1 : ∀ (r : UnittestComponentLayout) (a : ℚ), F { r with natural_height := a } = F r)
    {are s : LState} {c : Component} :
    ∀ j, F ((_update_natural_height are s c) j) = F (s j) := by
  intro j
  have hn : ∀ (t : LState) (i : Nat) (a : ℚ) (jj : Nat),
      F ((setRec t i { t i with natural_height := a }) jj) = F (t jj) := by
    intro t i a jj
    rw [setRec]
    by_cases hji : jj = i
    · rw [if_pos hji, h1, hji]
    · rw [if_neg hji]
  cases hk : c.data.kind with
  | Row =>
      simp only [_update_natural_height, hk, _update_natural_height_Row,
        Component._iter_direct_children]
      refine (foldl_pt_preserveField F _ _ _ _ ?_).trans (hn _ _ _ _)
      intro t e _
      exact hn t c._id _ j
  | Column =>
      simp only [_update_natural_height, hk, _update_natural_height_Column]
      exact hn _ _ _ _
  | Overlay =>
      simp only [_update_natural_height, hk, _update_natural_height_Overlay]
      exact hn _ _ _ _
  | SingleContainer =>
      simp only [_update_natural_height, hk, _update_natural_height_SingleContainer,
        iter_direct_tree_children]
      refine (foldl_pt_preserveField F _ _ _ _ ?_).trans (hn _ _ _ _)
      intro t e _
      exact hn t c._id _ j
  | Default =>
      simp only [_update_natural_height, hk]
      exact hn _ _ _ _

theorem heightRequestStep_preserveField (F : UnittestComponentLayout → ℚ)
    (h1 : ∀ (r : UnittestComponentLayout) (a : ℚ), F { r with natural_height := a } = F r)
    (h2 : ∀ (r : UnittestComponentLayout) (a b : ℚ),
      F { r with requested_inner_height := a, requested_outer_height := b } = F r)
    {are s : LState} {c : Component} :
    ∀ j, F ((heightRequestStep are s c) j) = F (s j) := by
  intro j
  simp only [heightRequestStep]
  rw [setRec]
  by_cases hji : j = c._id
  · rw [if_pos hji, h2, hji]
    exact update_natural_height_preserveField F h1 c._id
  · rw [if_neg hji]
    exact update_natural_height_preserveField F h1 j

theorem foldl_heightRequestStep_preserveField (F : UnittestComponentLayout → ℚ)
    (h1 : ∀ (r : UnittestComponentLayout) (a : ℚ), F { r with natural_height := a } = F r)
    (h2 : ∀ (r : UnittestComponentLayout) (a b : ℚ),
      F { r with requested_inner_height := a, requested_outer_height := b } = F r)
    (are : LState) :
    ∀ (l : List Component) (s : LState) (j : Nat),
      F ((l.foldl (heightRequestStep are) s) j) = F (s j) := by
  intro l
  induction l with
  | nil => intro s j; rfl
  | cons c cs ih =>
      intro s j
      rw [List.foldl_cons, ih, heightRequestStep_preserveField F h1 h2]

theorem update_natural_height_self_default {are s : LState} {c : Component}
    (hk : c.data.kind = .Default) :
    ((_update_natural_height are s c) c._id).natural_height = (are c._id).natural_height := by
  simp only [_update_natural_height, hk]
  rw [setRec, if_pos rfl]

theorem heightRequestStep_self_default_natural (are s : LState) (c : Component)
    (hk : c.data.kind = .Default) :
    ((heightRequestStep are s c) c._id).natural_height = (are c._id).natural_height := by
  simp only [heightRequestStep]
  rw [setRec, if_pos rfl]
  exact update_natural_height_self_default hk

theorem heightAllocStep_frame {are : LState} {wh : ℚ} {s s2 : LState} {c : Component} {j : Nat}
    (h : heightAllocStep are wh s c = .ok s2) (hj1 : j ≠ c._id)
    (hj2 : j ∉ c.children.map Component._id) : s2 j = s j := by
  simp only [heightAllocStep] at h
  cases hk : c.data.kind with
  | Row =>
      simp only [_update_allocated_height, hk, _update_allocated_height_Row,
        Component._iter_direct_children, Except.ok.injEq] at h
      subst h
      refine (foldl_pt_frame _ _ _ _ ?_).trans ?_
      · intro t e he
        have hne : j ≠ e._id := fun hee => hj2 (hee ▸ List.mem_map_of_mem _ he)
        rw [setRec, if_neg hne]
      · rw [setRec, if_neg hj1]
  | Column =>
      simp only [_update_allocated_height, hk, _update_allocated_height_Column,
        Component._iter_direct_children] at h
      split at h
      · exact absurd h (by simp)
      · simp only [Except.ok.injEq] at h
        subst h
        refine (foldl_pt_frame _ _ _ _ ?_).trans ?_
        · intro t e he
          rcases e with ⟨ch, sz⟩
          have hch := (List.of_mem_zip he).1
          have hne : j ≠ ch._id := fun hee => hj2 (hee ▸ List.mem_map_of_mem _ hch)
          rw [setRec, if_neg hne]
        · rw [setRec, if_neg hj1]
  | Overlay =>
      simp only [_update_allocated_height, hk, _update_allocated_height_Overlay,
        Component._iter_direct_children] at h
      cases hcs : c.children with
      | nil =>
          rw [hcs] at h
          simp only [Except.ok.injEq] at h
          subst h
          rw [setRec, if_neg hj1]
      | cons content rest =>
          rw [hcs] at h
          simp only [Except.ok.injEq] at h
          subst h
          have hcsm : content ∈ c.children := by
            rw [hcs]
            exact List.mem_cons_self _ _
          have hne : j ≠ content._id := fun hee => hj2 (hee ▸ List.mem_map_of_mem _ hcsm)
          rw [setRec, if_neg hne, setRec, if_neg hj1]
  | SingleContainer =>
      simp only [_update_allocated_height, hk, _update_allocated_height_SingleContainer,
        iter_direct_tree_children, Except.ok.injEq] at h
      subst h
      refine (foldl_pt_frame _ _ _ _ ?_).trans ?_
      · intro t e he
        have hne : j ≠ e._id := fun hee => hj2 (hee ▸ List.mem_map_of_mem _ he)
        rw [setRec, if_neg hne]
      · rw [setRec, if_neg hj1]
  | Default =>
      simp only [_update_allocated_height, hk, iter_direct_tree_children,
        Except.ok.injEq] at h
      subst h
      refine (foldl_pt_frame _ _ _ _ ?_).trans ?_
      · intro t e he
        have hne : j ≠ e._id := fun hee => hj2 (hee ▸ List.mem_map_of_mem _ he)
        rw [setRec, if_neg hne]
      · rw [setRec, if_neg hj1]

/-- At its own id, step 4 assigns exactly the inner top position and the
allocated inner height, leaving every other field of the record alone. -/
theorem heightAllocStep_self {are : LState} {wh : ℚ} {s s2 : LState} {c : Component}
    (h : heightAllocStep are wh s c = .ok s2) (hc : c._id ∉ c.children.map Component._id) :
    s2 c._id = { s c._id with
      top_in_viewport_inner := (s c._id).top_in_viewport_outer
        + (calculate_alignment (s c._id).allocated_outer_height
            (s c._id).requested_inner_height c.data._effective_margin_top
            c.data._effective_margin_bottom c.data.align_y).1,
      allocated_inner_height :=
        (calculate_alignment (s c._id).allocated_outer_height (s c._id).requested_inner_height
          c.data._effective_margin_top c.data._effective_margin_bottom c.data.align_y).2 } := by
  simp only [heightAllocStep] at h
  cases hk : c.data.kind with
  | Row =>
      simp only [_update_allocated_height, hk, _update_allocated_height_Row,
        Component._iter_direct_children, Except.ok.injEq] at h
      subst h
      refine (foldl_pt_frame _ _ _ _ ?_).trans ?_
      · intro t e he
        have hne : c._id ≠ e._id := fun hee => hc (hee ▸ List.mem_map_of_mem _ he)
        rw [setRec, if_neg hne]
      · rw [setRec, if_pos rfl]
  | Column =>
      simp only [_update_allocated_height, hk, _update_allocated_height_Column,
        Component._iter_direct_children] at h
      split at h
      · exact absurd h (by simp)
      · simp only [Except.ok.injEq] at h
        subst h
        refine (foldl_pt_frame _ _ _ _ ?_).trans ?_
        · intro t e he
          rcases e with ⟨ch, sz⟩
          have hch := (List.of_mem_zip he).1
          have hne : c._id ≠ ch._id := fun hee => hc (hee ▸ List.mem_map_of_mem _ hch)
          rw [setRec, if_neg hne]
        · rw [setRec, if_pos rfl]
  | Overlay =>
      simp only [_update_allocated_height, hk, _update_allocated_height_Overlay,
        Component._iter_direct_children] at h
      cases hcs : c.children with
      | nil =>
          rw [hcs] at h
          simp only [Except.ok.injEq] at h
          subst h
          rw [setRec, if_pos rfl]
      | cons content rest =>
          rw [hcs] at h
          simp only [Except.ok.injEq] at h
          subst h
          have hcsm : content ∈ c.children := by
            rw [hcs]
            exact List.mem_cons_self _ _
          have hne : c._id ≠ content._id := fun hee => hc (hee ▸ List.mem_map_of_mem _ hcsm)
          rw [setRec, if_neg hne, setRec, if_pos rfl]
  | SingleContainer =>
      simp only [_update_allocated_height, hk, _update_allocated_height_SingleContainer,
        iter_direct_tree_children, Except.ok.injEq] at h
      subst h
      refine (foldl_pt_frame _ _ _ _ ?_).trans ?_
      · intro t e he
        have hne : c._id ≠ e._id := fun hee => hc (hee ▸ List.mem_map_of_mem _ he)
        rw [setRec, if_neg hne]
      · rw [setRec, if_pos rfl]
  | Default =>
      simp only [_update_allocated_height, hk, iter_direct_tree_children,
        Except.ok.injEq] at h
      subst h
      refine (foldl_pt_frame _ _ _ _ ?_).trans ?_
      · intro t e he
        have hne : c._id ≠ e._id := fun hee => hc (hee ▸ List.mem_map_of_mem _ he)
        rw [setRec, if_neg hne]
      · rw [setRec, if_pos rfl]

/-- The default height-allocation fallback assigns a child its reported
allocated outer height AND both reported outer viewport coordinates. -/
theorem heightAllocStep_default_child {are : LState} {wh : ℚ} {s s2 : LState}
    {c x : Component} (h : heightAllocStep are wh s c = .ok s2)
    (hk : c.data.kind = .Default) (hx : x ∈ c.children)
    (hnd : (c.children.map Component._id).Nodup) (hcx : c._id ≠ x._id) :
    s2 x._id = { s x._id with
      allocated_outer_height := (are x._id).allocated_outer_height,
      left_in_viewport_outer := (are x._id).left_in_viewport_outer,
      top_in_viewport_outer := (are x._id).top_in_viewport_outer } := by
  simp only [heightAllocStep, _update_allocated_height, hk, iter_direct_tree_children,
    Except.ok.injEq] at h
  subst h
  obtain ⟨u, v, huv⟩ := List.append_of_mem hx
  have hids : x._id ∉ u.map Component._id ∧ x._id ∉ v.map Component._id := by
    rw [huv, List.map_append, List.map_cons] at hnd
    exact nodup_middle_split hnd
  rw [huv]
  refine (foldl_pt_last_value _ x._id u x v _ ?_ ?_ ?_).trans ?_
  · intro t a ha
    have hne : x._id ≠ a._id := fun hee => hids.1 (hee ▸ List.mem_map_of_mem _ ha)
    rw [setRec, if_neg hne]
  · intro t a ha
    have hne : x._id ≠ a._id := fun hee => hids.2 (hee ▸ List.mem_map_of_mem _ ha)
    rw [setRec, if_neg hne]
  · intro t t2 ht
    rw [setRec, if_pos rfl, setRec, if_pos rfl, ht]
  · rw [setRec, if_pos rfl, setRec, if_neg (fun hee => hcx hee.symm)]

/-- The overlay height allocation pins its single tree child to outer top 0
and the full window height. -/
theorem heightAllocStep_overlay_child {are : LState} {wh : ℚ} {s s2 : LState}
    {c x : Component} (h : heightAllocStep are wh s c = .ok s2)
    (hk : c.data.kind = .Overlay) (hcs : c.children = [x]) (hcx : c._id ≠ x._id) :
    s2 x._id = { s x._id with
      top_in_viewport_outer := 0, allocated_outer_height := wh } := by
  simp only [heightAllocStep, _update_allocated_height, hk, _update_allocated_height_Overlay,
    Component._iter_direct_children, hcs] at h
  simp only [Except.ok.injEq] at h
  subst h
  rw [setRec, if_pos rfl, setRec, if_neg (fun hee => hcx hee.symm)]

theorem heightAllocStep_preserveField (F : UnittestComponentLayout → ℚ)
    (h1 : ∀ (r : UnittestComponentLayout) (a b : ℚ),
      F { r with top_in_viewport_inner := a, allocated_inner_height := b } = F r)
    (h2 : ∀ (r : UnittestComponentLayout) (a b : ℚ),
      F { r with top_in_viewport_outer := a, allocated_outer_height := b } = F r)
    (h3 : ∀ (r : UnittestComponentLayout) (a b d : ℚ),
      F { r with allocated_outer_height := a, left_in_viewport_outer := b, top_in_viewport_outer := d } = F r)
    {are : LState} {wh : ℚ} {s s2 : LState} {c : Component}
    (h : heightAllocStep are wh s c = .ok s2) :
    ∀ j, F (s2 j) = F (s j) := by
  intro j
  have hw1 : ∀ (t : LState) (i : Nat) (a b : ℚ) (jj : Nat),
      F ((setRec t i { t i with top_in_viewport_inner := a, allocated_inner_height := b }) jj)
        = F (t jj) := by
    intro t i a b jj
    rw [setRec]
    by_cases hji : jj = i
    · rw [if_pos hji, h1, hji]
    · rw [if_neg hji]
  have hw2 : ∀ (t : LState) (i : Nat) (a b : ℚ) (jj : Nat),
      F ((setRec t i { t i with top_in_viewport_outer := a, allocated_outer_height := b }) jj)
        = F (t jj) := by
    intro t i a b jj
    rw [setRec]
    by_cases hji : jj = i
    · rw [if_pos hji, h2, hji]
    · rw [if_neg hji]
  have hw3 : ∀ (t : LState) (i : Nat) (a b d : ℚ) (jj : Nat),
      F ((setRec t i { t i with allocated_outer_height := a, left_in_viewport_outer := b, top_in_viewport_outer := d }) jj) = F (t jj) := by
    intro t i a b d jj
    rw [setRec]
    by_cases hji : jj = i
    · rw [if_pos hji, h3, hji]
    · rw [if_neg hji]
  simp only [heightAllocStep] at h
  cases hk : c.data.kind with
  | Row =>
      simp only [_update_allocated_height, hk, _update_allocated_height_Row,
        Component._iter_direct_children, Except.ok.injEq] at h
      subst h
      refine (foldl_pt_preserveField F _ _ _ _ ?_).trans (hw1 _ _ _ _ _)
      intro t e _
      exact hw2 t e._id _ _ j
  | Column =>
      simp only [_update_allocated_height, hk, _update_allocated_height_Column,
        Component._iter_direct_children] at h
      split at h
      · exact absurd h (by simp)
      · simp only [Except.ok.injEq] at h
        subst h
        refine (foldl_pt_preserveField F _ _ _ _ ?_).trans (hw1 _ _ _ _ _)
        intro t e _
        exact hw2 t e.1._id _ _ j
  | Overlay =>
      simp only [_update_allocated_height, hk, _update_allocated_height_Overlay,
        Component._iter_direct_children] at h
      cases hcs : c.children with
      | nil =>
          rw [hcs] at h
          simp only [Except.ok.injEq] at h
          subst h
          exact hw1 _ _ _ _ _
      | cons content rest =>
          rw [hcs] at h
          simp only [Except.ok.injEq] at h
          subst h
          exact (hw2 _ content._id _ _ j).trans (hw1 _ _ _ _ _)
  | SingleContainer =>
      simp only [_update_allocated_height, hk, _update_allocated_height_SingleContainer,
        iter_direct_tree_children, Except.ok.injEq] at h
      subst h
      refine (foldl_pt_preserveField F _ _ _ _ ?_).trans (hw1 _ _ _ _ _)
      intro t e _
      exact hw2 t e._id _ _ j
  | Default =>
      simp only [_update_allocated_height, hk, iter_direct_tree_children,
        Except.ok.injEq] at h
      subst h
      refine (foldl_pt_preserveField F _ _ _ _ ?_).trans (hw1 _ _ _ _ _)
      intro t e _
      exact hw3 t e._id _ _ _ j

theorem seedRootWidth_frame {ww : ℚ} {root : Component} {s : LState} {j : Nat}
    (hj : j ≠ root._id) : (seedRootWidth ww root s) j = s j := by
  simp only [seedRootWidth]
  rw [setRec, if_neg hj]

theorem seedRootHeight_frame {wh : ℚ} {root : Component} {s : LState} {j : Nat}
    (hj : j ≠ root._id) : (seedRootHeight wh root s) j = s j := by
  simp only [seedRootHeight]
  rw [setRec, if_neg hj]

theorem seedRootWidth_preserveField (F : UnittestComponentLayout → ℚ)
    (h2 : ∀ (r : UnittestComponentLayout) (a b : ℚ),
      F { r with left_in_viewport_outer := a, allocated_outer_width := b } = F r)
    {ww : ℚ} {root : Component} {s : LState} :
    ∀ j, F ((seedRootWidth ww root s) j) = F (s j) := by
  intro j
  simp only [seedRootWidth]
  rw [setRec]
  by_cases hj : j = root._id
  · rw [if_pos hj, h2, hj]
  · rw [if_neg hj]

theorem seedRootHeight_preserveField (F : UnittestComponentLayout → ℚ)
    (h2 : ∀ (r : UnittestComponentLayout) (a b : ℚ),
      F { r with top_in_viewport_outer := a, allocated_outer_height := b } = F r)
    {wh : ℚ} {root : Component} {s : LState} :
    ∀ j, F ((seedRootHeight wh root s) j) = F (s j) := by
  intro j
  simp only [seedRootHeight]
  rw [setRec]
  by_cases hj : j = root._id
  · rw [if_pos hj, h2, hj]
  · rw [if_neg hj]

theorem foldl_heightRequestStep_frame (are : LState) :
    ∀ (l : List Component) (s : LState) (j : Nat), (∀ c ∈ l, j ≠ c._id) →
      (l.foldl (heightRequestStep are) s) j = s j := by
  intro l
  induction l with
  | nil => intro s j _; rfl
  | cons c cs ih =>
      intro s j h
      rw [List.foldl_cons, ih _ _ (fun e he => h e (List.mem_cons_of_mem _ he)),
        heightRequestStep_frame (h c (List.mem_cons_self _ _))]

theorem foldlM_split_middle {step : LState → Component → Except LayoutError LState}
    {A : List Component} {p : Component} {D : List Component} {s sF : LState}
    (h : (A ++ p :: D).foldlM step s = .ok sF) :
    ∃ sA sP, A.foldlM step s = .ok sA ∧ step sA p = .ok sP ∧ D.foldlM step sP = .ok sF := by
  rw [List.foldlM_append] at h
  obtain ⟨sA, hA, h2⟩ := except_bind_ok h
  rw [List.foldlM_cons] at h2
  obtain ⟨sP, hP, h3⟩ := except_bind_ok h2
  exact ⟨sA, sP, hA, hP, h3⟩

theorem foldlM_widthAlloc_frame_at {are : LState} {ww : ℚ} {l : List Component}
    {s s2 : LState} {xid : Nat} (h : l.foldlM (widthAllocStep are ww) s = .ok s2)
    (hel : ∀ e ∈ l, xid ≠ e._id ∧ xid ∉ e.children.map Component._id) :
    s2 xid = s xid :=
  foldlM_ok_frame l s s2 xid h
    (fun _ _ c hc hstep => widthAllocStep_frame hstep (hel c hc).1 (hel c hc).2)

theorem foldlM_heightAlloc_frame_at {are : LState} {wh : ℚ} {l : List Component}
    {s s2 : LState} {xid : Nat} (h : l.foldlM (heightAllocStep are wh) s = .ok s2)
    (hel : ∀ e ∈ l, xid ≠ e._id ∧ xid ∉ e.children.map Component._id) :
    s2 xid = s xid :=
  foldlM_ok_frame l s s2 xid h
    (fun _ _ c hc hstep => heightAllocStep_frame hstep (hel c hc).1 (hel c hc).2)

theorem widthAllocStep_error_kind {are : LState} {ww : ℚ} {s : LState} {c : Component}
    {e : LayoutError} (h : widthAllocStep are ww s c = .error e) :
    e = .notImplemented := by
  simp only [widthAllocStep] at h
  cases hk : c.data.kind with
  | Row =>
      simp only [_update_allocated_width, hk, _update_allocated_width_Row,
        Component._iter_direct_children] at h
      split at h
      · rename_i e2 heq
        simp only [Except.error.injEq] at h
        subst h
        simp only [_linear_container_get_major_axis_allocated_sizes] at heq
        split at heq
        · exact absurd heq (by simp)
        · simp only [Except.error.injEq] at heq
          exact heq.symm
      · exact absurd h (by simp)
  | Column =>
      simp only [_update_allocated_width, hk, _update_allocated_width_Column] at h
      exact absurd h (by simp)
  | Overlay =>
      simp only [_update_allocated_width, hk, _update_allocated_width_Overlay] at h
      exact absurd h (by simp)
  | SingleContainer =>
      simp only [_update_allocated_width, hk,
        _update_allocated_width_SingleContainer] at h
      exact absurd h (by simp)
  | Default =>
      simp only [_update_allocated_width, hk] at h
      exact absurd h (by simp)

theorem heightAllocStep_error_kind {are : LState} {wh : ℚ} {s : LState} {c : Component}
    {e : LayoutError} (h : heightAllocStep are wh s c = .error e) :
    e = .notImplemented := by
  simp only [heightAllocStep] at h
  cases hk : c.data.kind with
  | Row =>
      simp only [_update_allocated_height, hk, _update_allocated_height_Row] at h
      exact absurd h (by simp)
  | Column =>
      simp only [_update_allocated_height, hk, _update_allocated_height_Column,
        Component._iter_direct_children] at h
      split at h
      · rename_i e2 heq
        simp only [Except.error.injEq] at h
        subst h
        simp only [_linear_container_get_major_axis_allocated_sizes] at heq
        split at heq
        · exact absurd heq (by simp)
        · simp only [Except.error.injEq] at heq
          exact heq.symm
      · exact absurd h (by simp)
  | Overlay =>
      simp only [_update_allocated_height, hk, _update_allocated_height_Overlay] at h
      exact absurd h (by simp)
  | SingleContainer =>
      simp only [_update_allocated_height, hk,
        _update_allocated_height_SingleContainer] at h
      exact absurd h (by simp)
  | Default =>
      simp only [_update_allocated_height, hk] at h
      exact absurd h (by simp)

theorem compute_error_kind {are : LState} {ww wh : ℚ} {root : Component}
    {ordered : List Component} {e : LayoutError}
    (h : _compute_layouts_should are ww wh root ordered = .error e) :
    e = .notImplemented := by
  simp only [_compute_layouts_should, widthAllocPass] at h
  cases hw : ordered.foldlM (widthAllocStep are ww)
      (seedRootWidth ww root (widthRequestPass are ordered)) with
  | ok s3 =>
      rw [hw] at h
      simp only [Bind.bind, Except.bind] at h
      exact foldlM_error_kind ordered _ e
        (fun _ _ e2 _ hstep => heightAllocStep_error_kind hstep) h
  | error e2 =>
      rw [hw] at h
      simp only [Bind.bind, Except.bind, Except.error.injEq] at h
      subst h
      exact foldlM_error_kind ordered _ _
        (fun _ _ e3 _ hstep => widthAllocStep_error_kind hstep) hw

theorem ordered_decomp {root p x : Component} (hwf : WellFormedIds root)
    (hp : p ∈ preorder root) (hx : x ∈ p.children) :
    ∃ A B C, _get_toposorted root = A ++ p :: (B ++ x :: C)
      ∧ (∀ e, (e ∈ A ∨ e ∈ B ∨ e ∈ C) → e ∈ preorder root ∧ e ≠ p ∧ e ≠ x)
      ∧ x ≠ p := by
  obtain ⟨A, B0, hAB⟩ := preorderRev_infix_of_mem root p hp
  obtain ⟨U, V, hUV⟩ := preorderRevList_infix_of_mem p.children x (mem_preorderList_of_mem hx)
  have hdec : _get_toposorted root
      = A ++ p :: (U ++ x :: (preorderRevList x.children ++ V ++ B0)) := by
    rw [get_toposorted_eq, hAB, preorderRev_eq p, hUV, preorderRev_eq x]
    simp
  have hxp : x ≠ p := by
    intro he
    have := nodeCount_lt_of_mem_children hx
    rw [he] at this
    omega
  refine ⟨A, U, preorderRevList x.children ++ V ++ B0, hdec, ?_, hxp⟩
  intro e he
  have hmemall : e ∈ _get_toposorted root := by
    rw [hdec]
    rcases he with h | h | h
    · exact List.mem_append_left _ h
    · exact List.mem_append_right _ (List.mem_cons_of_mem _ (List.mem_append_left _ h))
    · exact List.mem_append_right _ (List.mem_cons_of_mem _
        (List.mem_append_right _ (List.mem_cons_of_mem _ h)))
  have hmem : e ∈ preorder root := (get_toposorted_perm root).mem_iff.mp hmemall
  have hnd : (_get_toposorted root).Nodup := wf_ordered_nodup hwf
  rw [hdec] at hnd
  rw [List.nodup_append] at hnd
  obtain ⟨hndA, hndR, hdisj⟩ := hnd
  obtain ⟨hpR, hndR2⟩ := List.nodup_cons.mp hndR
  rw [List.nodup_append] at hndR2
  obtain ⟨hndU, hndX, hdisj2⟩ := hndR2
  obtain ⟨hxC, _⟩ := List.nodup_cons.mp hndX
  refine ⟨hmem, ?_, ?_⟩
  · intro hep
    subst hep
    rcases he with h | h | h
    · exact hdisj h (List.mem_cons_self _ _)
    · exact hpR (List.mem_append_left _ h)
    · exact hpR (List.mem_append_right _ (List.mem_cons_of_mem _ h))
  · intro hex
    subst hex
    rcases he with h | h | h
    · exact hdisj h (List.mem_cons_of_mem _
        (List.mem_append_right _ (List.mem_cons_self _ _)))
    · exact hdisj2 h (List.mem_cons_self _ _)
    · exact hxC h

theorem ordered_rev_decomp {root p : Component} (hwf : WellFormedIds root)
    (hp : p ∈ preorder root) :
    ∃ D E, (_get_toposorted root).reverse = D ++ p :: E
      ∧ (∀ e, (e ∈ D ∨ e ∈ E) → e ∈ preorder root ∧ e ≠ p) := by
  have hmem : p ∈ (_get_toposorted root).reverse := by
    rw [List.mem_reverse]
    exact (get_toposorted_perm root).mem_iff.mpr hp
  obtain ⟨D, E, hDE⟩ := List.append_of_mem hmem
  have hnd : ((_get_toposorted root).reverse).Nodup := by
    rw [List.nodup_reverse]
    exact wf_ordered_nodup hwf
  rw [hDE] at hnd
  have hsplit := nodup_middle_split hnd
  refine ⟨D, E, hDE, ?_⟩
  intro e he
  have hmem2 : e ∈ (_get_toposorted root).reverse := by
    rw [hDE]
    rcases he with h | h
    · exact List.mem_append_left _ h
    · exact List.mem_append_right _ (List.mem_cons_of_mem _ h)
  have hmem3 : e ∈ preorder root := by
    rw [List.mem_reverse] at hmem2
    exact (get_toposorted_perm root).mem_iff.mp hmem2
  refine ⟨hmem3, ?_⟩
  intro hep
  subst hep
  rcases he with h | h
  · exact hsplit.1 h
  · exact hsplit.2 h

/-- C10: for a non-root component `x` whose parent `p` uses the default
(unspecialized) allocation strategy, the final inner left viewport position
of `x` equals `-1` plus the alignment offset computed from `x`'s margins and
alignment factor — not its reported outer left plus that offset — because
the default width-allocation fallback assigns only the child's allocated
outer width, and the child's outer left position is first assigned during
the height allocation pass, after the inner left has been derived from the
sentinel and is never recomputed. -/
theorem default_parent_child_inner_left_from_sentinel :
    ∀ (root p x : Component) (are : LState) (ww wh : ℚ) (s : LState),
      WellFormedIds root → p ∈ preorder root → p.data.kind = .Default →
      x ∈ p.children →
      _compute_layouts_should are ww wh root (_get_toposorted root) = .ok s →
      (s x._id).left_in_viewport_inner
          = -1 + (calculate_alignment ((are x._id).allocated_outer_width)
              ((s x._id).requested_inner_width) x.data._effective_margin_left
              x.data._effective_margin_right x.data.align_x).1
        ∧ (s x._id).allocated_outer_width = (are x._id).allocated_outer_width
        ∧ ((are x._id).left_in_viewport_outer ≠ -1 →
            (s x._id).left_in_viewport_inner
              ≠ (are x._id).left_in_viewport_outer
                + (calculate_alignment ((are x._id).allocated_outer_width)
                    ((s x._id).requested_inner_width) x.data._effective_margin_left
                    x.data._effective_margin_right x.data.align_x).1) := by
  intro root p x are ww wh s6 hwf hp hkind hx hcomp
  have hxmem : x ∈ preorder root := mem_preorder_trans hp (child_mem_preorder hx)
  have hxp : x ≠ p := by
    intro he
    have := nodeCount_lt_of_mem_children hx
    rw [he] at this
    omega
  have hpx_id : p._id ≠ x._id := by
    intro he
    exact hxp (wf_id_inj hwf x hxmem p hp he.symm)
  have hxroot : x._id ≠ root._id := wf_child_id_ne_root hwf hp hx
  have hclass := wf_writer_classification hwf hp hx
  have hchnd : (p.children.map Component._id).Nodup := wf_children_map_nodup hwf hp
  have hxselfch : x._id ∉ x.children.map Component._id := wf_not_self_child hwf hp hx
  have hsegcond : ∀ (L : List Component),
      (∀ e, e ∈ L → e ∈ preorder root ∧ e ≠ p ∧ e ≠ x) →
      ∀ e ∈ L, x._id ≠ e._id ∧ x._id ∉ e.children.map Component._id := by
    intro L hL e he
    obtain ⟨hmem, hnp, hnx⟩ := hL e he
    rcases hclass e hmem with rfl | rfl | ⟨h1, h2⟩
    · exact absurd rfl hnp
    · exact absurd rfl hnx
    · exact ⟨fun hee => h1 hee.symm, h2⟩
  obtain ⟨A, B, C0, hdec, hseg, _⟩ := ordered_decomp hwf hp hx
  simp only [_compute_layouts_should] at hcomp
  obtain ⟨s3, hw2, hh4⟩ := except_bind_ok hcomp
  simp only [widthAllocPass] at hw2
  -- phase 1: x's outer left is the sentinel afterwards
  have h1L : ((widthRequestPass are (_get_toposorted root)) x._id).left_in_viewport_outer
      = -1 := by
    obtain ⟨D, E, hDE, hDEmem⟩ := ordered_rev_decomp hwf hxmem
    simp only [widthRequestPass]
    rw [hDE, List.foldl_append, List.foldl_cons]
    rw [foldl_widthRequestStep_frame are E _ x._id (by
      intro c hc hee
      exact (hDEmem c (Or.inr hc)).2 (wf_id_inj hwf c (hDEmem c (Or.inr hc)).1 x hxmem
        hee.symm))]
    exact widthRequestStep_self_left_outer are _ x
  -- the seed does not touch x
  have hs2x : (seedRootWidth ww root (widthRequestPass are (_get_toposorted root))) x._id
      = (widthRequestPass are (_get_toposorted root)) x._id :=
    seedRootWidth_frame hxroot
  -- phase 2 decomposition
  rw [hdec] at hw2
  rw [← hdec] at hw2
  rw [hdec] at hw2
  obtain ⟨sA, sP, hA, hP, hrest⟩ := foldlM_split_middle hw2
  rw [← hdec] at hA
  obtain ⟨sB, sX, hB, hX, hC⟩ := foldlM_split_middle hrest
  have hAseg : ∀ e ∈ A, e ∈ preorder root ∧ e ≠ p ∧ e ≠ x :=
    fun e he => hseg e (Or.inl he)
  have hBseg : ∀ e ∈ B, e ∈ preorder root ∧ e ≠ p ∧ e ≠ x :=
    fun e he => hseg e (Or.inr (Or.inl he))
  have hCseg : ∀ e ∈ C0, e ∈ preorder root ∧ e ≠ p ∧ e ≠ x :=
    fun e he => hseg e (Or.inr (Or.inr he))
  have hAx : sA x._id
      = (seedRootWidth ww root (widthRequestPass are (_get_toposorted root))) x._id :=
    foldlM_widthAlloc_frame_at hA (hsegcond A hAseg)
  have hPx : sP x._id = { sA x._id with
      allocated_outer_width := (are x._id).allocated_outer_width } :=
    widthAllocStep_default_child hP hkind hx hchnd hpx_id
  have hBx : sB x._id = sP x._id :=
    foldlM_widthAlloc_frame_at hB (hsegcond B hBseg)
  have hXx : sX x._id = { sB x._id with
      left_in_viewport_inner := (sB x._id).left_in_viewport_outer
        + (calculate_alignment (sB x._id).allocated_outer_width
            (sB x._id).requested_inner_width x.data._effective_margin_left
            x.data._effective_margin_right x.data.align_x).1,
      allocated_inner_width :=
        (calculate_alignment (sB x._id).allocated_outer_width
          (sB x._id).requested_inner_width x.data._effective_margin_left
          x.data._effective_margin_right x.data.align_x).2 } :=
    widthAllocStep_self hX hxselfch
  have hCx : s3 x._id = sX x._id :=
    foldlM_widthAlloc_frame_at hC (hsegcond C0 hCseg)
  -- facts about x's record at the end of the width passes
  have hB_lo : (sB x._id).left_in_viewport_outer = -1 := by
    rw [hBx, hPx]
    show (sA x._id).left_in_viewport_outer = -1
    rw [hAx, hs2x, h1L]
  have hB_aw : (sB x._id).allocated_outer_width = (are x._id).allocated_outer_width := by
    rw [hBx, hPx]
  have h3_li : (s3 x._id).left_in_viewport_inner
      = -1 + (calculate_alignment ((are x._id).allocated_outer_width)
          ((sB x._id).requested_inner_width) x.data._effective_margin_left
          x.data._effective_margin_right x.data.align_x).1 := by
    rw [hCx, hXx]
    show (sB x._id).left_in_viewport_outer
        + (calculate_alignment (sB x._id).allocated_outer_width
            (sB x._id).requested_inner_width x.data._effective_margin_left
            x.data._effective_margin_right x.data.align_x).1 = _
    rw [hB_lo, hB_aw]
  have h3_ri : (s3 x._id).requested_inner_width = (sB x._id).requested_inner_width := by
    rw [hCx, hXx]
  have h3_aw : (s3 x._id).allocated_outer_width = (are x._id).allocated_outer_width := by
    rw [hCx, hXx]
    show (sB x._id).allocated_outer_width = _
    exact hB_aw
  -- the height passes preserve the width fields of x's record
  have hpres : ∀ F : UnittestComponentLayout → ℚ,
      (∀ (r : UnittestComponentLayout) (a : ℚ), F { r with natural_height := a } = F r) →
      (∀ (r : UnittestComponentLayout) (a b : ℚ),
        F { r with requested_inner_height := a, requested_outer_height := b } = F r) →
      (∀ (r : UnittestComponentLayout) (a b : ℚ),
        F { r with top_in_viewport_inner := a, allocated_inner_height := b } = F r) →
      (∀ (r : UnittestComponentLayout) (a b : ℚ),
        F { r with top_in_viewport_outer := a, allocated_outer_height := b } = F r) →
      (∀ (r : UnittestComponentLayout) (a b d : ℚ),
        F { r with allocated_outer_height := a, left_in_viewport_outer := b, top_in_viewport_outer := d } = F r) →
      F (s6 x._id) = F (s3 x._id) := by
    intro F hf1 hf2 hf3 hf4 hf5
    have hstep4 := foldlM_ok_preserveField F _ _ _ hh4
      (fun t t2 c _ hstep j => heightAllocStep_preserveField F hf3 hf4 hf5 hstep j) x._id
    rw [hstep4]
    rw [seedRootHeight_preserveField F hf4 x._id]
    simp only [heightRequestPass]
    exact foldl_heightRequestStep_preserveField F hf1 hf2 are _ _ x._id
  have h6_li : (s6 x._id).left_in_viewport_inner = (s3 x._id).left_in_viewport_inner :=
    hpres (fun r => r.left_in_viewport_inner) (fun r a => rfl) (fun r a b => rfl)
      (fun r a b => rfl) (fun r a b => rfl) (fun r a b d => rfl)
  have h6_ri : (s6 x._id).requested_inner_width = (s3 x._id).requested_inner_width :=
    hpres (fun r => r.requested_inner_width) (fun r a => rfl) (fun r a b => rfl)
      (fun r a b => rfl) (fun r a b => rfl) (fun r a b d => rfl)
  have h6_aw : (s6 x._id).allocated_outer_width = (s3 x._id).allocated_outer_width :=
    hpres (fun r => r.allocated_outer_width) (fun r a => rfl) (fun r a b => rfl)
      (fun r a b => rfl) (fun r a b => rfl) (fun r a b d => rfl)
  have hmain : (s6 x._id).left_in_viewport_inner
      = -1 + (calculate_alignment ((are x._id).allocated_outer_width)
          ((s6 x._id).requested_inner_width) x.data._effective_margin_left
          x.data._effective_margin_right x.data.align_x).1 := by
    rw [h6_li, h6_ri, h3_ri, h3_li]
  refine ⟨hmain, by rw [h6_aw, h3_aw], ?_⟩
  intro hL hbad
  apply hL
  rw [hmain] at hbad
  exact add_right_cancel hbad.symm

theorem wf_seg_cond {root p x : Component} (hwf : WellFormedIds root)
    (hp : p ∈ preorder root) (hx : x ∈ p.children) :
    ∀ (L : List Component), (∀ e ∈ L, e ∈ preorder root ∧ e ≠ p ∧ e ≠ x) →
      ∀ e ∈ L, x._id ≠ e._id ∧ x._id ∉ e.children.map Component._id := by
  intro L hL e he
  obtain ⟨hmem, hnp, hnx⟩ := hL e he
  rcases wf_writer_classification hwf hp hx e hmem with rfl | rfl | ⟨h1, h2⟩
  · exact absurd rfl hnp
  · exact absurd rfl hnx
  · exact ⟨fun hee => h1 hee.symm, h2⟩

theorem child_ne_parent {p x : Component} (hx : x ∈ p.children) : x ≠ p := by
  intro he
  have := nodeCount_lt_of_mem_children hx
  rw [he] at this
  omega

theorem parent_id_ne_child_id {root p x : Component} (hwf : WellFormedIds root)
    (hp : p ∈ preorder root) (hx : x ∈ p.children) : p._id ≠ x._id := by
  intro he
  exact (child_ne_parent hx)
    (wf_id_inj hwf x (mem_preorder_trans hp (child_mem_preorder hx)) p hp he.symm)

/-- The height passes (step 3, the root seed, step 4) of the computation,
evaluated at a child `x` of a `Default`-strategy parent: the child ends up
with its reported allocated outer height and reported outer viewport
coordinates, while its allocated outer width survives from the width
passes. -/
theorem height_chain_default_child {root p x : Component} {are : LState} {wh : ℚ}
    {s3 s6 : LState} (hwf : WellFormedIds root) (hp : p ∈ preorder root)
    (hkind : p.data.kind = .Default) (hx : x ∈ p.children)
    (hh4 : (_get_toposorted root).foldlM (heightAllocStep are wh)
        (seedRootHeight wh root (heightRequestPass are (_get_toposorted root) s3))
      = .ok s6) :
    (s6 x._id).allocated_outer_height = (are x._id).allocated_outer_height
      ∧ (s6 x._id).left_in_viewport_outer = (are x._id).left_in_viewport_outer
      ∧ (s6 x._id).top_in_viewport_outer = (are x._id).top_in_viewport_outer
      ∧ (s6 x._id).allocated_outer_width = (s3 x._id).allocated_outer_width := by
  have hxmem : x ∈ preorder root := mem_preorder_trans hp (child_mem_preorder hx)
  have hpx_id : p._id ≠ x._id := parent_id_ne_child_id hwf hp hx
  have hxroot : x._id ≠ root._id := wf_child_id_ne_root hwf hp hx
  have hchnd : (p.children.map Component._id).Nodup := wf_children_map_nodup hwf hp
  have hxselfch : x._id ∉ x.children.map Component._id := wf_not_self_child hwf hp hx
  obtain ⟨A, B, C0, hdec, hseg, _⟩ := ordered_decomp hwf hp hx
  rw [hdec] at hh4
  obtain ⟨sA4, sP4, hA4, hP4, hrest4⟩ := foldlM_split_middle hh4
  rw [← hdec] at hA4
  obtain ⟨sB4, sX4, hB4, hX4, hC4⟩ := foldlM_split_middle hrest4
  have hAx : sA4 x._id = (seedRootHeight wh root
      (heightRequestPass are (_get_toposorted root) s3)) x._id :=
    foldlM_heightAlloc_frame_at hA4
      (wf_seg_cond hwf hp hx A (fun e he => hseg e (Or.inl he)))
  have hPx : sP4 x._id = { sA4 x._id with
      allocated_outer_height := (are x._id).allocated_outer_height,
      left_in_viewport_outer := (are x._id).left_in_viewport_outer,
      top_in_viewport_outer := (are x._id).top_in_viewport_outer } :=
    heightAllocStep_default_child hP4 hkind hx hchnd hpx_id
  have hBx : sB4 x._id = sP4 x._id :=
    foldlM_heightAlloc_frame_at hB4
      (wf_seg_cond hwf hp hx B (fun e he => hseg e (Or.inr (Or.inl he))))
  have hXx : sX4 x._id = { sB4 x._id with
      top_in_viewport_inner := (sB4 x._id).top_in_viewport_outer
        + (calculate_alignment (sB4 x._id).allocated_outer_height
            (sB4 x._id).requested_inner_height x.data._effective_margin_top
            x.data._effective_margin_bottom x.data.align_y).1,
      allocated_inner_height :=
        (calculate_alignment (sB4 x._id).allocated_outer_height
          (sB4 x._id).requested_inner_height x.data._effective_margin_top
          x.data._effective_margin_bottom x.data.align_y).2 } :=
    heightAllocStep_self hX4 hxselfch
  have hCx : s6 x._id = sX4 x._id :=
    foldlM_heightAlloc_frame_at hC4
      (wf_seg_cond hwf hp hx C0 (fun e he => hseg e (Or.inr (Or.inr he))))
  have hseed : (seedRootHeight wh root
      (heightRequestPass are (_get_toposorted root) s3)) x._id
      = (heightRequestPass are (_get_toposorted root) s3) x._id :=
    seedRootHeight_frame hxroot
  have haw : ((heightRequestPass are (_get_toposorted root) s3) x._id).allocated_outer_width
      = (s3 x._id).allocated_outer_width := by
    simp only [heightRequestPass]
    exact foldl_heightRequestStep_preserveField (fun r => r.allocated_outer_width)
      (fun r a => rfl) (fun r a b => rfl) are _ _ x._id
  refine ⟨?_, ?_, ?_, ?_⟩
  · rw [hCx, hXx]
    show (sB4 x._id).allocated_outer_height = _
    rw [hBx, hPx]
  · rw [hCx, hXx]
    show (sB4 x._id).left_in_viewport_outer = _
    rw [hBx, hPx]
  · rw [hCx, hXx]
    show (sB4 x._id).top_in_viewport_outer = _
    rw [hBx, hPx]
  · rw [hCx, hXx]
    show (sB4 x._id).allocated_outer_width = _
    rw [hBx, hPx]
    show (sA4 x._id).allocated_outer_width = _
    rw [hAx, hseed, haw]

/-- Like `height_chain_default_child`, for an `Overlay` parent: the child
ends up pinned to outer top 0 and the full window height, and its width
fields survive from the width passes. -/
theorem height_chain_overlay_child {root p x : Component} {are : LState} {wh : ℚ}
    {s3 s6 : LState} (hwf : WellFormedIds root) (hp : p ∈ preorder root)
    (hkind : p.data.kind = .Overlay) (hcs : p.children = [x])
    (hh4 : (_get_toposorted root).foldlM (heightAllocStep are wh)
        (seedRootHeight wh root (heightRequestPass are (_get_toposorted root) s3))
      = .ok s6) :
    (s6 x._id).allocated_outer_height = wh
      ∧ (s6 x._id).top_in_viewport_outer = 0
      ∧ (s6 x._id).left_in_viewport_outer = (s3 x._id).left_in_viewport_outer
      ∧ (s6 x._id).allocated_outer_width = (s3 x._id).allocated_outer_width := by
  have hx : x ∈ p.children := by
    rw [hcs]
    exact List.mem_cons_self _ _
  have hpx_id : p._id ≠ x._id := parent_id_ne_child_id hwf hp hx
  have hxroot : x._id ≠ root._id := wf_child_id_ne_root hwf hp hx
  have hxselfch : x._id ∉ x.children.map Component._id := wf_not_self_child hwf hp hx
  obtain ⟨A, B, C0, hdec, hseg, _⟩ := ordered_decomp hwf hp hx
  rw [hdec] at hh4
  obtain ⟨sA4, sP4, hA4, hP4, hrest4⟩ := foldlM_split_middle hh4
  rw [← hdec] at hA4
  obtain ⟨sB4, sX4, hB4, hX4, hC4⟩ := foldlM_split_middle hrest4
  have hAx : sA4 x._id = (seedRootHeight wh root
      (heightRequestPass are (_get_toposorted root) s3)) x._id :=
    foldlM_heightAlloc_frame_at hA4
      (wf_seg_cond hwf hp hx A (fun e he => hseg e (Or.inl he)))
  have hPx : sP4 x._id = { sA4 x._id with
      top_in_viewport_outer := 0, allocated_outer_height := wh } :=
    heightAllocStep_overlay_child hP4 hkind hcs hpx_id
  have hBx : sB4 x._id = sP4 x._id :=
    foldlM_heightAlloc_frame_at hB4
      (wf_seg_cond hwf hp hx B (fun e he => hseg e (Or.inr (Or.inl he))))
  have hXx : sX4 x._id = { sB4 x._id with
      top_in_viewport_inner := (sB4 x._id).top_in_viewport_outer
        + (calculate_alignment (sB4 x._id).allocated_outer_height
            (sB4 x._id).requested_inner_height x.data._effective_margin_top
            x.data._effective_margin_bottom x.data.align_y).1,
      allocated_inner_height :=
        (calculate_alignment (sB4 x._id).allocated_outer_height
          (sB4 x._id).requested_inner_height x.data._effective_margin_top
          x.data._effective_margin_bottom x.data.align_y).2 } :=
    heightAllocStep_self hX4 hxselfch
  have hCx : s6 x._id = sX4 x._id :=
    foldlM_heightAlloc_frame_at hC4
      (wf_seg_cond hwf hp hx C0 (fun e he => hseg e (Or.inr (Or.inr he))))
  have hseed : (seedRootHeight wh root
      (heightRequestPass are (_get_toposorted root) s3)) x._id
      = (heightRequestPass are (_get_toposorted root) s3) x._id :=
    seedRootHeight_frame hxroot
  have haw : ((heightRequestPass are (_get_toposorted root) s3) x._id).allocated_outer_width
      = (s3 x._id).allocated_outer_width := by
    simp only [heightRequestPass]
    exact foldl_heightRequestStep_preserveField (fun r => r.allocated_outer_width)
      (fun r a => rfl) (fun r a b => rfl) are _ _ x._id
  have hlo : ((heightRequestPass are (_get_toposorted root) s3) x._id).left_in_viewport_outer
      = (s3 x._id).left_in_viewport_outer := by
    simp only [heightRequestPass]
    exact foldl_heightRequestStep_preserveField (fun r => r.left_in_viewport_outer)
      (fun r a => rfl) (fun r a b => rfl) are _ _ x._id
  refine ⟨?_, ?_, ?_, ?_⟩
  · rw [hCx, hXx]
    show (sB4 x._id).allocated_outer_height = _
    rw [hBx, hPx]
  · rw [hCx, hXx]
    show (sB4 x._id).top_in_viewport_outer = _
    rw [hBx, hPx]
  · rw [hCx, hXx]
    show (sB4 x._id).left_in_viewport_outer = _
    rw [hBx, hPx]
    show (sA4 x._id).left_in_viewport_outer = _
    rw [hAx, hseed, hlo]
  · rw [hCx, hXx]
    show (sB4 x._id).allocated_outer_width = _
    rw [hBx, hPx]
    show (sA4 x._id).allocated_outer_width = _
    rw [hAx, hseed, haw]

theorem width_chain_default_child {root p x : Component} {are : LState} {ww : ℚ}
    {s0 s3 : LState} (hwf : WellFormedIds root) (hp : p ∈ preorder root)
    (hkind : p.data.kind = .Default) (hx : x ∈ p.children)
    (hw2 : (_get_toposorted root).foldlM (widthAllocStep are ww) s0 = .ok s3) :
    (s3 x._id).allocated_outer_width = (are x._id).allocated_outer_width := by
  have hpx_id : p._id ≠ x._id := parent_id_ne_child_id hwf hp hx
  have hchnd : (p.children.map Component._id).Nodup := wf_children_map_nodup hwf hp
  have hxselfch : x._id ∉ x.children.map Component._id := wf_not_self_child hwf hp hx
  obtain ⟨A, B, C0, hdec, hseg, _⟩ := ordered_decomp hwf hp hx
  rw [hdec] at hw2
  obtain ⟨sA, sP, hA, hP, hrest⟩ := foldlM_split_middle hw2
  obtain ⟨sB, sX, hB, hX, hC⟩ := foldlM_split_middle hrest
  have hPx : sP x._id = { sA x._id with
      allocated_outer_width := (are x._id).allocated_outer_width } :=
    widthAllocStep_default_child hP hkind hx hchnd hpx_id
  have hBx : sB x._id = sP x._id :=
    foldlM_widthAlloc_frame_at hB
      (wf_seg_cond hwf hp hx B (fun e he => hseg e (Or.inr (Or.inl he))))
  have hXx := widthAllocStep_self hX hxselfch
  have hCx : s3 x._id = sX x._id :=
    foldlM_widthAlloc_frame_at hC
      (wf_seg_cond hwf hp hx C0 (fun e he => hseg e (Or.inr (Or.inr he))))
  rw [hCx, hXx]
  show (sB x._id).allocated_outer_width = _
  rw [hBx, hPx]

theorem width_chain_overlay_child {root p x : Component} {are : LState} {ww : ℚ}
    {s0 s3 : LState} (hwf : WellFormedIds root) (hp : p ∈ preorder root)
    (hkind : p.data.kind = .Overlay) (hcs : p.children = [x])
    (hw2 : (_get_toposorted root).foldlM (widthAllocStep are ww) s0 = .ok s3) :
    (s3 x._id).allocated_outer_width = ww
      ∧ (s3 x._id).left_in_viewport_outer = 0 := by
  have hx : x ∈ p.children := by
    rw [hcs]
    exact List.mem_cons_self _ _
  have hpx_id : p._id ≠ x._id := parent_id_ne_child_id hwf hp hx
  have hxselfch : x._id ∉ x.children.map Component._id := wf_not_self_child hwf hp hx
  obtain ⟨A, B, C0, hdec, hseg, _⟩ := ordered_decomp hwf hp hx
  rw [hdec] at hw2
  obtain ⟨sA, sP, hA, hP, hrest⟩ := foldlM_split_middle hw2
  obtain ⟨sB, sX, hB, hX, hC⟩ := foldlM_split_middle hrest
  have hPx : sP x._id = { sA x._id with
      left_in_viewport_outer := 0, allocated_outer_width := ww } :=
    widthAllocStep_overlay_child hP hkind hcs hpx_id
  have hBx : sB x._id = sP x._id :=
    foldlM_widthAlloc_frame_at hB
      (wf_seg_cond hwf hp hx B (fun e he => hseg e (Or.inr (Or.inl he))))
  have hXx := widthAllocStep_self hX hxselfch
  have hCx : s3 x._id = sX x._id :=
    foldlM_widthAlloc_frame_at hC
      (wf_seg_cond hwf hp hx C0 (fun e he => hseg e (Or.inr (Or.inr he))))
  constructor
  · rw [hCx, hXx]
    show (sB x._id).allocated_outer_width = _
    rw [hBx, hPx]
  · rw [hCx, hXx]
    show (sB x._id).left_in_viewport_outer = _
    rw [hBx, hPx]

/-- C6: after the computation, the single tree child of every `Overlay`
node has allocated outer width equal to the window width at outer left 0,
and allocated outer height equal to the window height at outer top 0 —
independently of the overlay's own allocated size and position. -/
theorem overlay_child_gets_window :
    ∀ (root p x : Component) (are : LState) (ww wh : ℚ) (s : LState),
      WellFormedIds root → p ∈ preorder root → p.data.kind = .Overlay →
      p.children = [x] →
      _compute_layouts_should are ww wh root (_get_toposorted root) = .ok s →
      (s x._id).allocated_outer_width = ww
        ∧ (s x._id).left_in_viewport_outer = 0
        ∧ (s x._id).allocated_outer_height = wh
        ∧ (s x._id).top_in_viewport_outer = 0 := by
  intro root p x are ww wh s6 hwf hp hkind hcs hcomp
  simp only [_compute_layouts_should, widthAllocPass] at hcomp
  obtain ⟨s3, hw2, hh4⟩ := except_bind_ok hcomp
  obtain ⟨haw3, hlo3⟩ := width_chain_overlay_child hwf hp hkind hcs hw2
  obtain ⟨hah6, hto6, hlo6, haw6⟩ := height_chain_overlay_child hwf hp hkind hcs hh4
  exact ⟨haw6.trans haw3, hlo6.trans hlo3, hah6, hto6⟩

theorem overlay_child_gets_window_witness :
    WellFormedIds exOverlayRoot
      ∧ ((runLayouts exAre 100 200 exOverlayRoot (_get_toposorted exOverlayRoot))
          exLeaf1._id).allocated_outer_width = 100
      ∧ ((runLayouts exAre 100 200 exOverlayRoot (_get_toposorted exOverlayRoot))
          exLeaf1._id).left_in_viewport_outer = 0
      ∧ ((runLayouts exAre 100 200 exOverlayRoot (_get_toposorted exOverlayRoot))
          exLeaf1._id).allocated_outer_height = 200
      ∧ ((runLayouts exAre 100 200 exOverlayRoot (_get_toposorted exOverlayRoot))
          exLeaf1._id).top_in_viewport_outer = 0 := by
  have htopo : _get_toposorted exOverlayRoot = [exOverlayRoot, exLeaf1] := by
    rw [get_toposorted_eq, preorderRev_eq]
    rw [show exOverlayRoot.children = [exLeaf1] from rfl]
    rw [preorderRevList, preorderRevList, preorderRev_eq]
    rw [show exLeaf1.children = ([] : List Component) from rfl]
    rw [preorderRevList]
    simp
  have hwf : WellFormedIds exOverlayRoot := by
    simp only [WellFormedIds, exOverlayRoot, exLeaf1]
    rw [preorder, preorderList, preorder, preorderList]
    simp [Component._id, Component.data, plainData]
  have hcomp : _compute_layouts_should exAre 100 200 exOverlayRoot
      (_get_toposorted exOverlayRoot)
      = .ok (runLayouts exAre 100 200 exOverlayRoot (_get_toposorted exOverlayRoot)) := by
    rw [htopo]
    simp only [runLayouts, _compute_layouts_should, widthAllocPass, widthRequestPass,
      heightRequestPass, seedRootWidth, seedRootHeight,
      List.reverse_cons, List.reverse_nil, List.nil_append, List.cons_append,
      List.foldl_cons, List.foldl_nil, List.foldlM_cons, List.foldlM_nil,
      widthRequestStep, heightRequestStep, widthAllocStep, heightAllocStep,
      _update_natural_width, _update_natural_height,
      _update_allocated_width, _update_allocated_height,
      _update_natural_width_Overlay, _update_natural_height_Overlay,
      _update_allocated_width_Overlay, _update_allocated_height_Overlay,
      Component._iter_direct_children, iter_direct_tree_children,
      exOverlayRoot, exLeaf1, plainData, Component.data, Component.children,
      Component._id, calculate_alignment, setRec, Bind.bind, Except.bind,
      pure, Except.pure]
  exact ⟨hwf, overlay_child_gets_window exOverlayRoot exOverlayRoot exLeaf1 exAre 100 200
    _ hwf (self_mem_preorder _) rfl rfl hcomp⟩

/-- C5: for every node with no specialized strategy (default fallback), the
computed natural sizes equal the reported ones, and each of its children's
allocated outer sizes and outer viewport positions equal the reported
values exactly. -/
theorem default_strategy_passthrough :
    ∀ (root p : Component) (are : LState) (ww wh : ℚ) (s : LState),
      WellFormedIds root → p ∈ preorder root → p.data.kind = .Default →
      _compute_layouts_should are ww wh root (_get_toposorted root) = .ok s →
      ((s p._id).natural_width = (are p._id).natural_width
        ∧ (s p._id).natural_height = (are p._id).natural_height)
      ∧ (∀ x ∈ p.children,
          (s x._id).allocated_outer_width = (are x._id).allocated_outer_width
          ∧ (s x._id).allocated_outer_height = (are x._id).allocated_outer_height
          ∧ (s x._id).left_in_viewport_outer = (are x._id).left_in_viewport_outer
          ∧ (s x._id).top_in_viewport_outer = (are x._id).top_in_viewport_outer) := by
  intro root p are ww wh s6 hwf hp hkind hcomp
  simp only [_compute_layouts_should, widthAllocPass] at hcomp
  obtain ⟨s3, hw2, hh4⟩ := except_bind_ok hcomp
  have hEids : ∀ (L : List Component), (∀ e, (e ∈ L) → e ∈ preorder root ∧ e ≠ p) →
      ∀ c ∈ L, p._id ≠ c._id := by
    intro L hL c hc hee
    exact (hL c hc).2 ((wf_id_inj hwf c (hL c hc).1 p hp hee.symm))
  constructor
  · have hpost : ∀ F : UnittestComponentLayout → ℚ,
        (∀ (r : UnittestComponentLayout) (a b : ℚ),
          F { r with top_in_viewport_inner := a, allocated_inner_height := b } = F r) →
        (∀ (r : UnittestComponentLayout) (a b : ℚ),
          F { r with top_in_viewport_outer := a, allocated_outer_height := b } = F r) →
        (∀ (r : UnittestComponentLayout) (a b d : ℚ),
          F { r with allocated_outer_height := a, left_in_viewport_outer := b, top_in_viewport_outer := d } = F r) →
        ∀ j, F (s6 j) = F ((heightRequestPass are (_get_toposorted root) s3) j) := by
      intro F hf3 hf4 hf5 j
      have hstep4 := foldlM_ok_preserveField F _ _ _ hh4
        (fun t t2 c _ hstep jj => heightAllocStep_preserveField F hf3 hf4 hf5 hstep jj) j
      rw [hstep4, seedRootHeight_preserveField F hf4 j]
    constructor
    · -- natural width: set in step 1, preserved ever since
      have h1 : ((widthRequestPass are (_get_toposorted root)) p._id).natural_width
          = (are p._id).natural_width := by
        obtain ⟨D, E, hDE, hDEmem⟩ := ordered_rev_decomp hwf hp
        simp only [widthRequestPass]
        rw [hDE, List.foldl_append, List.foldl_cons]
        rw [foldl_widthRequestStep_frame are E _ p._id
          (hEids E (fun e he => hDEmem e (Or.inr he)))]
        exact widthRequestStep_self_default_natural are _ p hkind
      have h2 : ((seedRootWidth ww root (widthRequestPass are (_get_toposorted root)))
          p._id).natural_width
          = ((widthRequestPass are (_get_toposorted root)) p._id).natural_width :=
        seedRootWidth_preserveField (fun r => r.natural_width) (fun r a b => rfl) p._id
      have h3 : (s3 p._id).natural_width
          = ((seedRootWidth ww root (widthRequestPass are (_get_toposorted root)))
            p._id).natural_width :=
        foldlM_ok_preserveField (fun r => r.natural_width) _ _ _ hw2
          (fun t t2 c _ hstep jj => widthAllocStep_preserveField
            (fun r => r.natural_width) (fun r a b => rfl) (fun r a b => rfl)
            (fun r a => rfl) hstep jj) p._id
      have h4 : ((heightRequestPass are (_get_toposorted root) s3) p._id).natural_width
          = (s3 p._id).natural_width := by
        simp only [heightRequestPass]
        exact foldl_heightRequestStep_preserveField (fun r => r.natural_width)
          (fun r a => rfl) (fun r a b => rfl) are _ _ p._id
      have h5 := hpost (fun r => r.natural_width)
        (fun r a b => rfl) (fun r a b => rfl) (fun r a b d => rfl) p._id
      rw [h5, h4, h3, h2, h1]
    · -- natural height: set in step 3, preserved by the seed and step 4
      have h1 : ((heightRequestPass are (_get_toposorted root) s3) p._id).natural_height
          = (are p._id).natural_height := by
        obtain ⟨D, E, hDE, hDEmem⟩ := ordered_rev_decomp hwf hp
        simp only [heightRequestPass]
        rw [hDE, List.foldl_append, List.foldl_cons]
        rw [foldl_heightRequestStep_frame are E _ p._id
          (hEids E (fun e he => hDEmem e (Or.inr he)))]
        exact heightRequestStep_self_default_natural are _ p hkind
      have h5 := hpost (fun r => r.natural_height)
        (fun r a b => rfl) (fun r a b => rfl) (fun r a b d => rfl) p._id
      rw [h5, h1]
  · intro x hx
    obtain ⟨hah, hlo, hto, haw6⟩ := height_chain_default_child hwf hp hkind hx hh4
    have haw3 := width_chain_default_child hwf hp hkind hx hw2
    exact ⟨haw6.trans haw3, hah, hlo, hto⟩

theorem default_strategy_passthrough_witness :
    WellFormedIds exDefaultRoot
      ∧ ((runLayouts exAre 100 200 exDefaultRoot (_get_toposorted exDefaultRoot))
          exDefaultRoot._id).natural_width = (exAre exDefaultRoot._id).natural_width
      ∧ ((runLayouts exAre 100 200 exDefaultRoot (_get_toposorted exDefaultRoot))
          exDefaultRoot._id).natural_height = (exAre exDefaultRoot._id).natural_height
      ∧ ((runLayouts exAre 100 200 exDefaultRoot (_get_toposorted exDefaultRoot))
          exLeaf1._id).allocated_outer_width = (exAre exLeaf1._id).allocated_outer_width
      ∧ ((runLayouts exAre 100 200 exDefaultRoot (_get_toposorted exDefaultRoot))
          exLeaf1._id).allocated_outer_height = (exAre exLeaf1._id).allocated_outer_height
      ∧ ((runLayouts exAre 100 200 exDefaultRoot (_get_toposorted exDefaultRoot))
          exLeaf1._id).left_in_viewport_outer = (exAre exLeaf1._id).left_in_viewport_outer
      ∧ ((runLayouts exAre 100 200 exDefaultRoot (_get_toposorted exDefaultRoot))
          exLeaf1._id).top_in_viewport_outer = (exAre exLeaf1._id).top_in_viewport_outer := by
  have htopo : _get_toposorted exDefaultRoot = [exDefaultRoot, exLeaf1] := by
    rw [get_toposorted_eq, preorderRev_eq]
    rw [show exDefaultRoot.children = [exLeaf1] from rfl]
    rw [preorderRevList, preorderRevList, preorderRev_eq]
    rw [show exLeaf1.children = ([] : List Component) from rfl]
    rw [preorderRevList]
    simp
  have hwf : WellFormedIds exDefaultRoot := by
    simp only [WellFormedIds, exDefaultRoot, exLeaf1]
    rw [preorder, preorderList, preorder, preorderList]
    simp [Component._id, Component.data, plainData]
  have hcomp : _compute_layouts_should exAre 100 200 exDefaultRoot
      (_get_toposorted exDefaultRoot)
      = .ok (runLayouts exAre 100 200 exDefaultRoot (_get_toposorted exDefaultRoot)) := by
    rw [htopo]
    simp only [runLayouts, _compute_layouts_should, widthAllocPass, widthRequestPass,
      heightRequestPass, seedRootWidth, seedRootHeight,
      List.reverse_cons, List.reverse_nil, List.nil_append, List.cons_append,
      List.foldl_cons, List.foldl_nil, List.foldlM_cons, List.foldlM_nil,
      widthRequestStep, heightRequestStep, widthAllocStep, heightAllocStep,
      _update_natural_width, _update_natural_height,
      _update_allocated_width, _update_allocated_height,
      Component._iter_direct_children, iter_direct_tree_children,
      exDefaultRoot, exLeaf1, plainData, Component.data, Component.children,
      Component._id, calculate_alignment, setRec, Bind.bind, Except.bind,
      pure, Except.pure]
  have hx : exLeaf1 ∈ exDefaultRoot.children := by
    rw [show exDefaultRoot.children = [exLeaf1] from rfl]
    exact List.mem_cons_self _ _
  have h := default_strategy_passthrough exDefaultRoot exDefaultRoot exAre 100 200
    _ hwf (self_mem_preorder _) rfl hcomp
  exact ⟨hwf, h.1.1, h.1.2, (h.2 exLeaf1 hx).1, (h.2 exLeaf1 hx).2.1,
    (h.2 exLeaf1 hx).2.2.1, (h.2 exLeaf1 hx).2.2.2⟩

theorem default_parent_child_inner_left_from_sentinel_witness :
    WellFormedIds exDefaultRoot
      ∧ ((runLayouts exAre 100 100 exDefaultRoot (_get_toposorted exDefaultRoot))
          exLeaf1._id).left_in_viewport_inner
        = -1 + (calculate_alignment ((exAre exLeaf1._id).allocated_outer_width)
            (((runLayouts exAre 100 100 exDefaultRoot (_get_toposorted exDefaultRoot))
              exLeaf1._id).requested_inner_width)
            exLeaf1.data._effective_margin_left exLeaf1.data._effective_margin_right
            exLeaf1.data.align_x).1
      ∧ ((runLayouts exAre 100 100 exDefaultRoot (_get_toposorted exDefaultRoot))
          exLeaf1._id).left_in_viewport_inner
        ≠ (exAre exLeaf1._id).left_in_viewport_outer
          + (calculate_alignment ((exAre exLeaf1._id).allocated_outer_width)
              (((runLayouts exAre 100 100 exDefaultRoot (_get_toposorted exDefaultRoot))
                exLeaf1._id).requested_inner_width)
              exLeaf1.data._effective_margin_left exLeaf1.data._effective_margin_right
              exLeaf1.data.align_x).1 := by
  have htopo : _get_toposorted exDefaultRoot = [exDefaultRoot, exLeaf1] := by
    rw [get_toposorted_eq, preorderRev_eq]
    rw [show exDefaultRoot.children = [exLeaf1] from rfl]
    rw [preorderRevList, preorderRevList, preorderRev_eq]
    rw [show exLeaf1.children = ([] : List Component) from rfl]
    rw [preorderRevList]
    simp
  have hwf : WellFormedIds exDefaultRoot := by
    simp only [WellFormedIds, exDefaultRoot, exLeaf1]
    rw [preorder, preorderList, preorder, preorderList]
    simp [Component._id, Component.data, plainData]
  have hcomp : _compute_layouts_should exAre 100 100 exDefaultRoot
      (_get_toposorted exDefaultRoot)
      = .ok (runLayouts exAre 100 100 exDefaultRoot (_get_toposorted exDefaultRoot)) := by
    rw [htopo]
    simp only [runLayouts, _compute_layouts_should, widthAllocPass, widthRequestPass,
      heightRequestPass, seedRootWidth, seedRootHeight,
      List.reverse_cons, List.reverse_nil, List.nil_append, List.cons_append,
      List.foldl_cons, List.foldl_nil, List.foldlM_cons, List.foldlM_nil,
      widthRequestStep, heightRequestStep, widthAllocStep, heightAllocStep,
      _update_natural_width, _update_natural_height,
      _update_allocated_width, _update_allocated_height,
      Component._iter_direct_children, iter_direct_tree_children,
      exDefaultRoot, exLeaf1, plainData, Component.data, Component.children,
      Component._id, calculate_alignment, setRec, Bind.bind, Except.bind,
      pure, Except.pure]
  have hx : exLeaf1 ∈ exDefaultRoot.children := by
    rw [show exDefaultRoot.children = [exLeaf1] from rfl]
    exact List.mem_cons_self _ _
  have h := default_parent_child_inner_left_from_sentinel exDefaultRoot exDefaultRoot exLeaf1
    exAre 100 100 _ hwf (self_mem_preorder _) rfl hx hcomp
  exact ⟨hwf, h.1, h.2.2 (by norm_num [exAre, exAreRecord])⟩

/-- C9: counterexample to the field-population invariant. On a tree with a
`Default` root and one child, after the width allocation pass completes the
child's outer left viewport position still holds the sentinel `-1`: the
default width-allocation fallback assigns only the child's allocated outer
width, never its outer left position. -/
theorem width_pass_leaves_child_outer_left_sentinel :
    (widthAllocPass exAre 100 (_get_toposorted exDefaultRoot)
        (seedRootWidth 100 exDefaultRoot
          (widthRequestPass exAre (_get_toposorted exDefaultRoot)))).map
      (fun s => (s exLeaf1._id).left_in_viewport_outer) = .ok (-1) := by
  have htopo : _get_toposorted exDefaultRoot = [exDefaultRoot, exLeaf1] := by
    rw [get_toposorted_eq, preorderRev_eq]
    rw [show exDefaultRoot.children = [exLeaf1] from rfl]
    rw [preorderRevList, preorderRevList, preorderRev_eq]
    rw [show exLeaf1.children = ([] : List Component) from rfl]
    rw [preorderRevList]
    simp
  rw [htopo]
  simp only [widthAllocPass, widthRequestPass, seedRootWidth,
    List.reverse_cons, List.reverse_nil, List.nil_append, List.cons_append,
    List.foldl_cons, List.foldl_nil, List.foldlM_cons, List.foldlM_nil,
    widthRequestStep, widthAllocStep,
    _update_natural_width, _update_allocated_width,
    Component._iter_direct_children, iter_direct_tree_children,
    exDefaultRoot, exLeaf1, plainData, Component.data, Component.children,
    Component._id, calculate_alignment, setRec, emptyLayouts, unpopulatedLayout,
    Bind.bind, Except.bind, pure, Except.pure, Except.map]
  norm_num

theorem isEmpty_eq_true_iff {α : Type} (l : List α) : l.isEmpty = true ↔ l = [] := by
  cases l <;> simp [List.isEmpty]

/-- C7: the desync check in `Layouter.create`. If some id reachable from
the root is missing from the client's reported id list, creation fails
with a `missingIds` error carrying exactly the missing ids; if all server
ids are present but the client reports extra ids, creation fails with a
`superfluousIds` error carrying exactly the superfluous ids (the two sets
are reported distinctly, missing ids checked first); and when the two id
sets agree, creation never fails with either desync error. -/
theorem create_desync_check :
    ∀ (root : Component) (ci : UnittestClientLayoutInfo),
      ((∃ i, i ∈ (preorder root).map Component._id
          ∧ i ∉ ci.component_layout_ids) →
        ∃ m, Layouter.create root ci = .error (.missingIds m) ∧ m ≠ []
          ∧ (∀ i, i ∈ m ↔ (i ∈ (preorder root).map Component._id
              ∧ i ∉ ci.component_layout_ids)))
      ∧ (((∀ i, i ∈ (preorder root).map Component._id → i ∈ ci.component_layout_ids)
          ∧ ∃ i, i ∈ ci.component_layout_ids
              ∧ i ∉ (preorder root).map Component._id) →
        ∃ u, Layouter.create root ci = .error (.superfluousIds u) ∧ u ≠ []
          ∧ (∀ i, i ∈ u ↔ (i ∈ ci.component_layout_ids
              ∧ i ∉ (preorder root).map Component._id)))
      ∧ ((∀ i, i ∈ (preorder root).map Component._id ↔ i ∈ ci.component_layout_ids) →
        (∀ m, Layouter.create root ci ≠ .error (.missingIds m))
          ∧ (∀ u, Layouter.create root ci ≠ .error (.superfluousIds u))) := by
  intro root ci
  have hperm : ∀ i, i ∈ (_get_toposorted root).map Component._id
      ↔ i ∈ (preorder root).map Component._id :=
    fun i => ((get_toposorted_perm root).map Component._id).mem_iff
  refine ⟨?_, ?_, ?_⟩
  · rintro ⟨i0, hi0s, hi0c⟩
    have hmem : i0 ∈ ((_get_toposorted root).map Component._id).filter
        (fun i => decide (i ∉ ci.component_layout_ids)) :=
      List.mem_filter.mpr ⟨(hperm i0).mpr hi0s, decide_eq_true hi0c⟩
    have hne : ((_get_toposorted root).map Component._id).filter
        (fun i => decide (i ∉ ci.component_layout_ids)) ≠ [] :=
      List.ne_nil_of_mem hmem
    have hie : ¬ ((((_get_toposorted root).map Component._id).filter
        (fun i => decide (i ∉ ci.component_layout_ids))).isEmpty = true) := by
      rw [isEmpty_eq_true_iff]
      exact hne
    refine ⟨_, ?_, hne, ?_⟩
    · simp only [Layouter.create]
      rw [if_neg hie]
    · intro i
      rw [List.mem_filter]
      constructor
      · rintro ⟨h1, h2⟩
        exact ⟨(hperm i).mp h1, of_decide_eq_true h2⟩
      · rintro ⟨h1, h2⟩
        exact ⟨(hperm i).mpr h1, decide_eq_true h2⟩
  · rintro ⟨hall, i0, hi0c, hi0s⟩
    have hmfil : (((_get_toposorted root).map Component._id).filter
        (fun i => decide (i ∉ ci.component_layout_ids))) = [] := by
      rw [List.eq_nil_iff_forall_not_mem]
      intro x hx
      obtain ⟨h1, h2⟩ := List.mem_filter.mp hx
      exact of_decide_eq_true h2 (hall x ((hperm x).mp h1))
    have hmie : (((_get_toposorted root).map Component._id).filter
        (fun i => decide (i ∉ ci.component_layout_ids))).isEmpty = true := by
      rw [isEmpty_eq_true_iff]
      exact hmfil
    have hsm : i0 ∈ ci.component_layout_ids.filter
        (fun i => decide (i ∉ (_get_toposorted root).map Component._id)) :=
      List.mem_filter.mpr ⟨hi0c, decide_eq_true (fun hc => hi0s ((hperm i0).mp hc))⟩
    have hsne : ci.component_layout_ids.filter
        (fun i => decide (i ∉ (_get_toposorted root).map Component._id)) ≠ [] :=
      List.ne_nil_of_mem hsm
    have hsie : ¬ ((ci.component_layout_ids.filter
        (fun i => decide (i ∉ (_get_toposorted root).map Component._id))).isEmpty
          = true) := by
      rw [isEmpty_eq_true_iff]
      exact hsne
    refine ⟨_, ?_, hsne, ?_⟩
    · simp only [Layouter.create]
      rw [if_pos hmie, if_neg hsie]
    · intro i
      rw [List.mem_filter]
      constructor
      · rintro ⟨h1, h2⟩
        exact ⟨h1, fun hc => of_decide_eq_true h2 ((hperm i).mpr hc)⟩
      · rintro ⟨h1, h2⟩
        exact ⟨h1, decide_eq_true (fun hc => h2 ((hperm i).mp hc))⟩
  · intro hiff
    have hmie : (((_get_toposorted root).map Component._id).filter
        (fun i => decide (i ∉ ci.component_layout_ids))).isEmpty = true := by
      rw [isEmpty_eq_true_iff, List.eq_nil_iff_forall_not_mem]
      intro x hx
      obtain ⟨h1, h2⟩ := List.mem_filter.mp hx
      exact of_decide_eq_true h2 ((hiff x).mp ((hperm x).mp h1))
    have hsie : (ci.component_layout_ids.filter
        (fun i => decide (i ∉ (_get_toposorted root).map Component._id))).isEmpty
          = true := by
      rw [isEmpty_eq_true_iff, List.eq_nil_iff_forall_not_mem]
      intro x hx
      obtain ⟨h1, h2⟩ := List.mem_filter.mp hx
      exact of_decide_eq_true h2 ((hperm x).mpr ((hiff x).mpr h1))
    have hcreate : Layouter.create root ci
        = (_compute_layouts_should ci.component_layouts ci.window_width
            ci.window_height root (_get_toposorted root)).map
          (fun sh =>
            { window_width := ci.window_width
              window_height := ci.window_height
              _layouts_should := sh
              _layouts_are := ci.component_layouts }) := by
      simp only [Layouter.create]
      rw [if_pos hmie, if_pos hsie]
    constructor
    · intro m hcontra
      rw [hcreate] at hcontra
      cases hc : _compute_layouts_should ci.component_layouts ci.window_width
          ci.window_height root (_get_toposorted root) with
      | ok s =>
          rw [hc] at hcontra
          simp [Except.map] at hcontra
      | error e =>
          rw [hc] at hcontra
          have he := compute_error_kind hc
          subst he
          simp [Except.map] at hcontra
    · intro u hcontra
      rw [hcreate] at hcontra
      cases hc : _compute_layouts_should ci.component_layouts ci.window_width
          ci.window_height root (_get_toposorted root) with
      | ok s =>
          rw [hc] at hcontra
          simp [Except.map] at hcontra
      | error e =>
          rw [hc] at hcontra
          have he := compute_error_kind hc
          subst he
          simp [Except.map] at hcontra

theorem create_desync_check_witness :
    (∃ i, i ∈ (preorder exDefaultRoot).map Component._id
        ∧ i ∉ exClientInfoMissing.component_layout_ids)
      ∧ ∃ m, Layouter.create exDefaultRoot exClientInfoMissing = .error (.missingIds m)
          ∧ m ≠ []
          ∧ (∀ i, i ∈ m ↔ (i ∈ (preorder exDefaultRoot).map Component._id
              ∧ i ∉ exClientInfoMissing.component_layout_ids)) := by
  have hex : ∃ i, i ∈ (preorder exDefaultRoot).map Component._id
      ∧ i ∉ exClientInfoMissing.component_layout_ids := by
    refine ⟨1, ?_, ?_⟩
    · simp only [exDefaultRoot, exLeaf1]
      rw [preorder, preorderList, preorder, preorderList]
      simp [Component._id, Component.data, plainData]
    · simp [exClientInfoMissing]
  exact ⟨hex, (create_desync_check exDefaultRoot exClientInfoMissing).1 hex⟩
